import Mathlib

/-!
Verification development for the super-fair-vm-rs execution engine.

The definitions below are shallow embeddings of the Rust sources:
  * `FairVM.*`  embeds the `fairvm` crate (src/fairvm/src/evm/...):
    stack.rs, memory.rs, opcodes.rs, executor.rs, precompiled.rs, mod.rs.
  * `Core.*`    embeds the `fair-vm-core` crate (src/fair-vm-core/vm/...):
    stack.rs, memory.rs, executor.rs.  Its `opcodes.rs` and the
    `ExecutorError` type are referenced by the executor but are absent from
    the snapshot, so those two pieces are modelled from the specification
    (see the doc comments marked "Modelled from the spec:").

256-bit machine words (`U256`) are embedded as natural numbers; wrapping
operations reduce modulo 2^256 explicitly.  `usize` values that the Rust
code obtains via `U256::as_usize` are embedded as the corresponding
natural number; theorems about them carry explicit smallness hypotheses
where the conversion could panic in Rust.
-/

set_option maxHeartbeats 1000000
set_option maxRecDepth 8000

namespace FairVM

/-- The modulus 2^256 of 256-bit machine words. -/
def U256.size : Nat := 2 ^ 256

/-- Reduce a natural number into the 256-bit range (used where the Rust
`U256` operations wrap). -/
def U256.wrap (n : Nat) : Nat := n % U256.size

/-- Embedding of `U256::overflowing_add(a, b).0`. -/
def U256.add (a b : Nat) : Nat := (a + b) % U256.size

/-- Embedding of `U256::overflowing_mul(a, b).0`. -/
def U256.mul (a b : Nat) : Nat := (a * b) % U256.size

/-- Embedding of `U256::overflowing_sub(a, b).0` for operands already in range. -/
def U256.sub (a b : Nat) : Nat := (a + U256.size - b) % U256.size

/-- Bitwise `!a` on a 256-bit word. -/
def U256.not (a : Nat) : Nat := Nat.xor a (U256.size - 1)

/-- Embedding of `StackError` from fairvm/src/evm/stack.rs. -/
inductive StackError where
  | Overflow
  | Underflow
  | DepthLimitExceeded
  | InvalidIndex (i : Nat)
deriving DecidableEq, Repr

/-- Embedding of `Stack` from fairvm/src/evm/stack.rs.  `items` holds the stack
top-first, i.e. the reverse of the Rust `Vec` whose top is the last
element; the element `index` positions below the top is `items[index]`. -/
structure Stack where
  items : List Nat
  max_depth : Nat
deriving DecidableEq, Repr

/-- Embedding of `Stack::new` (default maximum depth 1024). -/
def Stack.new : Stack := ⟨[], 1024⟩

/-- Embedding of `Stack::push`. -/
def Stack.push (s : Stack) (value : Nat) : Except StackError Stack :=
  if s.items.length ≥ s.max_depth then .error .DepthLimitExceeded
  else .ok ⟨value :: s.items, s.max_depth⟩

/-- Embedding of `Stack::pop`. -/
def Stack.pop (s : Stack) : Except StackError (Nat × Stack) :=
  match s.items with
  | [] => .error .Underflow
  | v :: rest => .ok (v, ⟨rest, s.max_depth⟩)

/-- Embedding of `Stack::peek`. -/
def Stack.peek (s : Stack) : Except StackError Nat :=
  match s.items with
  | [] => .error .Underflow
  | v :: _ => .ok v

/-- Embedding of `Stack::dup` (`index = 0` is the top). -/
def Stack.dup (s : Stack) (index : Nat) : Except StackError Stack :=
  if index ≥ s.items.length then .error (.InvalidIndex index)
  else s.push (s.items.getD index 0)

/-- Embedding of `Stack::swap` (exchanges the top with the element `index` below it). -/
def Stack.swap (s : Stack) (index : Nat) : Except StackError Stack :=
  if index = 0 ∨ index ≥ s.items.length then .error (.InvalidIndex index)
  else .ok ⟨(s.items.set 0 (s.items.getD index 0)).set index (s.items.getD 0 0), s.max_depth⟩

/-- Embedding of `Stack::get`. -/
def Stack.get (s : Stack) (index : Nat) : Except StackError Nat :=
  if index ≥ s.items.length then .error (.InvalidIndex index)
  else .ok (s.items.getD index 0)

/-- Embedding of `Stack::set`. -/
def Stack.set (s : Stack) (index value : Nat) : Except StackError Stack :=
  if index ≥ s.items.length then .error (.InvalidIndex index)
  else .ok ⟨s.items.set index value, s.max_depth⟩

/-- Embedding of `Stack::clear`. -/
def Stack.clear (s : Stack) : Stack := ⟨[], s.max_depth⟩

/-- Big-endian byte representation of `value` in `width` bytes
(`U256::to_big_endian` with `width = 32`, `u64::to_be_bytes` with
`width = 8`). -/
def beBytes (width value : Nat) : List Nat :=
  (List.range width).map (fun i => value / 256 ^ (width - 1 - i) % 256)

/-- Big-endian value of a byte list (`U256::from_big_endian`). -/
def beValue (bytes : List Nat) : Nat := bytes.foldl (fun acc b => acc * 256 + b) 0

/-- Overwrite `data[offset .. offset + bytes.length]` with `bytes`
(the semantics of `copy_from_slice` into a slice of `data`; the callers
below only use it when the range is in bounds). -/
def listWrite (data : List Nat) (offset : Nat) (bytes : List Nat) : List Nat :=
  data.take offset ++ bytes ++ data.drop (offset + bytes.length)

/-- Embedding of `Memory` from fairvm/src/evm/memory.rs: a byte buffer `data` and the
logical size in bytes. -/
structure Memory where
  data : List Nat
  size : Nat
deriving DecidableEq, Repr

/-- Embedding of `Memory::new`. -/
def Memory.new : Memory := ⟨[], 0⟩

/-- Embedding of `Memory::expand`: grows the buffer and returns the marginal gas cost.
Mirrors fairvm/src/evm/memory.rs lines 30-61. -/
def Memory.expand (m : Memory) (offset size : Nat) : Memory × Nat :=
  if size = 0 then (m, 0)
  else
    let old_size := m.size
    let new_size := max old_size (offset + size)
    let data :=
      if new_size > m.data.length
      then m.data ++ List.replicate (new_size - m.data.length) 0
      else m.data
    let old_words := (old_size + 31) / 32
    let new_words := (new_size + 31) / 32
    let gas :=
      if new_words ≤ old_words then 0
      else 3 * (new_words - old_words)
        + (new_words * new_words / 512 - old_words * old_words / 512)
    (⟨data, new_size⟩, gas)

/-- Embedding of `Memory::store32`. -/
def Memory.store32 (m : Memory) (offset value : Nat) : Memory :=
  let m1 := (m.expand offset 32).1
  ⟨listWrite m1.data offset (beBytes 32 value), m1.size⟩

/-- Embedding of `Memory::load32`. -/
def Memory.load32 (m : Memory) (offset : Nat) : Nat :=
  if offset + 32 > m.data.length then 0
  else beValue ((m.data.drop offset).take 32)

/-- Embedding of `Memory::store`. -/
def Memory.store (m : Memory) (offset : Nat) (value : List Nat) : Memory :=
  let m1 := (m.expand offset value.length).1
  ⟨listWrite m1.data offset value, m1.size⟩

/-- Embedding of `Memory::load`. -/
def Memory.load (m : Memory) (offset size : Nat) : List Nat :=
  if offset + size > m.data.length then List.replicate size 0
  else (m.data.drop offset).take size

/-- Embedding of `ExecutorError` from fairvm/src/evm/executor.rs (the `error` field of a
failing `ExecutionResult` carries its rendering; we keep the structured
value). -/
inductive ExecutorError where
  | OutOfGas
  | Stack (e : StackError)
  | InvalidOpcode (b : Nat)
  | InvalidJumpdest
  | Stopped (msg : String)
  | State (msg : String)
deriving DecidableEq, Repr

/-- Embedding of `ExecutionResult` from fairvm/src/evm/mod.rs. -/
structure ExecutionResult where
  success : Bool
  gas_used : Nat
  return_data : List Nat
  error : Option ExecutorError
deriving DecidableEq, Repr

/-- The mutable fields of `Executor` from fairvm/src/evm/executor.rs.
The `state` collaborator is omitted: in this crate `EvmContext for State`
implements `get_storage` as a constant `H256::zero()` and
`set_storage_value` as an empty no-op (src/fairvm/src/state.rs), so SLOAD
and SSTORE touch no state. -/
structure Executor where
  memory : Memory
  stack : Stack
  pc : Nat
  gas_used : Nat
  gas_limit : Nat
  return_data : List Nat
deriving DecidableEq, Repr

/-- Embedding of `Executor::new` with a given gas limit (context fields other than
`gas_limit` are unused by the embedded opcodes). -/
def Executor.new (gas_limit : Nat) : Executor :=
  ⟨Memory.new, Stack.new, 0, 0, gas_limit, []⟩

/-- Embedding of `Opcode::gas_cost` from fairvm/src/evm/opcodes.rs, as a function of the
instruction byte.  `Opcode::from_u8` transmutes the byte, so a byte hits a
named arm exactly when it equals that variant's discriminant and falls to
the `_ => 3` arm otherwise. -/
def Opcode.gas_cost (b : Nat) : Nat :=
  if b = 0x00 ∨ b = 0x5b then 0
  else if b = 0x01 ∨ b = 0x03 ∨ b = 0x19 ∨ b = 0x10 ∨ b = 0x11 ∨ b = 0x12 ∨
      b = 0x13 ∨ b = 0x14 ∨ b = 0x15 ∨ b = 0x16 ∨ b = 0x17 ∨ b = 0x18 ∨
      b = 0x1a ∨ b = 0x1b ∨ b = 0x1c ∨ b = 0x1d ∨ b = 0x50 ∨ b = 0x60 ∨
      b = 0x61 ∨ b = 0x7f ∨ b = 0x80 ∨ b = 0x81 ∨ b = 0x8f ∨ b = 0x90 ∨
      b = 0x91 ∨ b = 0x9f then 3
  else if b = 0x02 ∨ b = 0x04 ∨ b = 0x05 ∨ b = 0x06 ∨ b = 0x07 ∨ b = 0x0b then 5
  else if b = 0x51 ∨ b = 0x52 ∨ b = 0x53 then 3
  else if b = 0x54 then 200
  else if b = 0x55 then 20000
  else if b = 0x30 ∨ b = 0x32 ∨ b = 0x33 ∨ b = 0x34 ∨ b = 0x36 ∨ b = 0x38 ∨
      b = 0x3a ∨ b = 0x3d then 2
  else if b = 0x40 then 20
  else if b = 0x41 ∨ b = 0x42 ∨ b = 0x43 ∨ b = 0x44 ∨ b = 0x45 then 2
  else if b = 0xa0 then 375
  else if b = 0xa1 then 750
  else if b = 0xa2 then 1125
  else if b = 0xa3 then 1500
  else if b = 0xa4 then 1875
  else if b = 0xf0 ∨ b = 0xf5 then 32000
  else if b = 0xf1 ∨ b = 0xf2 ∨ b = 0xf4 ∨ b = 0xfa then 700
  else if b = 0xf3 ∨ b = 0xfd then 0
  else if b = 0xff then 5000
  else 3

/-- Embedding of `Executor::use_gas` from fairvm/src/evm/executor.rs lines 122-128. -/
def Executor.use_gas (s : Executor) (amount : Nat) : Except ExecutorError Executor :=
  if s.gas_used + amount > s.gas_limit then .error .OutOfGas
  else .ok { s with gas_used := s.gas_used + amount }

/-- State-passing embedding of one `&mut self` computation in
`Executor::execute_opcode`: the returned executor reflects all mutations
performed before an error, as in the Rust `?` operator. -/
def EM (α : Type) : Type := Executor → Executor × Except ExecutorError α

def EM.pure {α : Type} (a : α) : EM α := fun s => (s, .ok a)

def EM.fail {α : Type} (e : ExecutorError) : EM α := fun s => (s, .error e)

def EM.bind {α β : Type} (x : EM α) (f : α → EM β) : EM β := fun s =>
  match x s with
  | (s', .ok a) => f a s'
  | (s', .error e) => (s', .error e)

/-- Embedding of `self.use_gas(amount)?`. -/
def EM.useGas (amount : Nat) : EM Unit := fun s =>
  match s.use_gas amount with
  | .ok s' => (s', .ok ())
  | .error e => (s, .error e)

/-- Embedding of `self.stack.pop()?`. -/
def EM.pop : EM Nat := fun s =>
  match s.stack.pop with
  | .ok (v, st) => ({ s with stack := st }, .ok v)
  | .error e => (s, .error (.Stack e))

/-- Embedding of `self.stack.push(v)?`. -/
def EM.push (v : Nat) : EM Unit := fun s =>
  match s.stack.push v with
  | .ok st => ({ s with stack := st }, .ok ())
  | .error e => (s, .error (.Stack e))

/-- Embedding of `self.stack.dup(i)?`. -/
def EM.dup (i : Nat) : EM Unit := fun s =>
  match s.stack.dup i with
  | .ok st => ({ s with stack := st }, .ok ())
  | .error e => (s, .error (.Stack e))

/-- Embedding of `self.stack.swap(i)?`. -/
def EM.swap (i : Nat) : EM Unit := fun s =>
  match s.stack.swap i with
  | .ok st => ({ s with stack := st }, .ok ())
  | .error e => (s, .error (.Stack e))

/-- Embedding of `let gas = self.memory.expand(offset, size)` (mutates the memory and
yields the marginal cost). -/
def EM.expand (offset size : Nat) : EM Nat := fun s =>
  let p := s.memory.expand offset size
  ({ s with memory := p.1 }, .ok p.2)

/-- Embedding of `self.memory.store32(offset, value)`. -/
def EM.store32 (offset value : Nat) : EM Unit := fun s =>
  ({ s with memory := s.memory.store32 offset value }, .ok ())

/-- Embedding of `self.memory.store(offset, bytes)`. -/
def EM.storeBytes (offset : Nat) (bytes : List Nat) : EM Unit := fun s =>
  ({ s with memory := s.memory.store offset bytes }, .ok ())

/-- Embedding of `self.memory.load32(offset)`. -/
def EM.load32 (offset : Nat) : EM Nat := fun s => (s, .ok (s.memory.load32 offset))

/-- Embedding of `self.return_data = self.memory.load(offset, size)`. -/
def EM.returnFromMemory (offset size : Nat) : EM Unit := fun s =>
  ({ s with return_data := s.memory.load offset size }, .ok ())

/-- The body of the `Opcode::JUMP` arm after popping the destination
(fairvm executor.rs lines 354-367); also used by a taken JUMPI. -/
def EM.jumpTo (code : List Nat) (jumpdests : List Bool) (dest : Nat) : EM Bool := fun s =>
  if dest ≥ code.length ∨ ¬ jumpdests.getD dest false then (s, .error .InvalidJumpdest)
  else ({ s with pc := dest }, .ok false)

/-- The PUSH1-PUSH32 arm (fairvm executor.rs): reads `n` operand bytes,
pushes their big-endian value built with `value <<= 8; value |= byte`, and
advances `pc` by `n`. -/
def EM.pushOp (code : List Nat) (n : Nat) : EM Bool := fun s =>
  if s.pc + n ≥ code.length then (s, .error (.Stopped "Unexpected EOF"))
  else
    let value := (List.range n).foldl
      (fun v i => Nat.lor (U256.wrap (v * 256)) (code.getD (s.pc + 1 + i) 0)) 0
    match s.stack.push value with
    | .ok st => ({ s with stack := st, pc := s.pc + n }, .ok true)
    | .error e => (s, .error (.Stack e))

/-- Embedding of `Executor::execute_opcode` from fairvm/src/evm/executor.rs.
`Opcode::from_u8` never fails (it transmutes the byte), so decoding
produces the byte itself; the match arms are keyed by discriminant value
with the PUSH/DUP/SWAP range guards, and unlisted values fall to
`InvalidOpcode`. -/
def execute_opcode (code : List Nat) (jumpdests : List Bool) (op : Nat) : EM Bool :=
  EM.bind (EM.useGas (Opcode.gas_cost op)) (fun _ =>
  if op = 0x00 then EM.pure false
  else if op = 0x01 then
    EM.bind EM.pop (fun a => EM.bind EM.pop (fun b =>
      EM.bind (EM.push (U256.add a b)) (fun _ => EM.pure true)))
  else if op = 0x02 then
    EM.bind EM.pop (fun a => EM.bind EM.pop (fun b =>
      EM.bind (EM.push (U256.mul a b)) (fun _ => EM.pure true)))
  else if op = 0x03 then
    EM.bind EM.pop (fun a => EM.bind EM.pop (fun b =>
      EM.bind (EM.push (U256.sub a b)) (fun _ => EM.pure true)))
  else if op = 0x04 then
    EM.bind EM.pop (fun a => EM.bind EM.pop (fun b =>
      EM.bind (EM.push (if b = 0 then 0 else a / b)) (fun _ => EM.pure true)))
  else if op = 0x06 then
    EM.bind EM.pop (fun a => EM.bind EM.pop (fun b =>
      EM.bind (EM.push (if b = 0 then 0 else a % b)) (fun _ => EM.pure true)))
  else if op = 0x10 then
    EM.bind EM.pop (fun a => EM.bind EM.pop (fun b =>
      EM.bind (EM.push (if a < b then 1 else 0)) (fun _ => EM.pure true)))
  else if op = 0x11 then
    EM.bind EM.pop (fun a => EM.bind EM.pop (fun b =>
      EM.bind (EM.push (if a > b then 1 else 0)) (fun _ => EM.pure true)))
  else if op = 0x14 then
    EM.bind EM.pop (fun a => EM.bind EM.pop (fun b =>
      EM.bind (EM.push (if a = b then 1 else 0)) (fun _ => EM.pure true)))
  else if op = 0x15 then
    EM.bind EM.pop (fun a =>
      EM.bind (EM.push (if a = 0 then 1 else 0)) (fun _ => EM.pure true))
  else if op = 0x16 then
    EM.bind EM.pop (fun a => EM.bind EM.pop (fun b =>
      EM.bind (EM.push (Nat.land a b)) (fun _ => EM.pure true)))
  else if op = 0x17 then
    EM.bind EM.pop (fun a => EM.bind EM.pop (fun b =>
      EM.bind (EM.push (Nat.lor a b)) (fun _ => EM.pure true)))
  else if op = 0x18 then
    EM.bind EM.pop (fun a => EM.bind EM.pop (fun b =>
      EM.bind (EM.push (Nat.xor a b)) (fun _ => EM.pure true)))
  else if op = 0x19 then
    EM.bind EM.pop (fun a =>
      EM.bind (EM.push (U256.not a)) (fun _ => EM.pure true))
  else if op = 0x50 then
    EM.bind EM.pop (fun _ => EM.pure true)
  else if op = 0x51 then
    EM.bind EM.pop (fun offset =>
      EM.bind (EM.expand offset 32) (fun gas =>
        EM.bind (EM.useGas gas) (fun _ =>
          EM.bind (EM.load32 offset) (fun value =>
            EM.bind (EM.push value) (fun _ => EM.pure true)))))
  else if op = 0x52 then
    EM.bind EM.pop (fun offset => EM.bind EM.pop (fun value =>
      EM.bind (EM.expand offset 32) (fun gas =>
        EM.bind (EM.useGas gas) (fun _ =>
          EM.bind (EM.store32 offset value) (fun _ => EM.pure true)))))
  else if op = 0x53 then
    EM.bind EM.pop (fun offset => EM.bind EM.pop (fun value =>
      EM.bind (EM.expand offset 1) (fun gas =>
        EM.bind (EM.useGas gas) (fun _ =>
          EM.bind (EM.storeBytes offset [value % 256]) (fun _ => EM.pure true)))))
  else if op = 0x54 then
    -- `state.get_storage` is the constant-zero stub in this crate.
    EM.bind EM.pop (fun _key =>
      EM.bind (EM.push (beValue (List.replicate 32 0))) (fun _ => EM.pure true))
  else if op = 0x55 then
    -- `state.set_storage_value` is an empty no-op in this crate.
    EM.bind EM.pop (fun _key => EM.bind EM.pop (fun _value => EM.pure true))
  else if op = 0x56 then
    EM.bind EM.pop (fun dest => EM.jumpTo code jumpdests dest)
  else if op = 0x57 then
    EM.bind EM.pop (fun dest => EM.bind EM.pop (fun cond =>
      if cond ≠ 0 then EM.jumpTo code jumpdests dest else EM.pure true))
  else if op = 0x5b then EM.pure true
  else if 0x60 ≤ op ∧ op ≤ 0x7f then
    EM.pushOp code (op - 0x60 + 1)
  else if 0x80 ≤ op ∧ op ≤ 0x8f then
    EM.bind (EM.dup (op - 0x80)) (fun _ => EM.pure true)
  else if 0x90 ≤ op ∧ op ≤ 0x9f then
    EM.bind (EM.swap (op - 0x90 + 1)) (fun _ => EM.pure true)
  else if op = 0xf3 then
    EM.bind EM.pop (fun offset => EM.bind EM.pop (fun size =>
      EM.bind (EM.expand offset size) (fun gas =>
        EM.bind (EM.useGas gas) (fun _ =>
          EM.bind (EM.returnFromMemory offset size) (fun _ => EM.pure false)))))
  else EM.fail (.InvalidOpcode op))

/-- The number of bytes skipped after an instruction byte by the
jump-destination scan (`bytes_to_push` for PUSH1..PUSH32, 0 otherwise). -/
def skipLen (b : Nat) : Nat := if 0x60 ≤ b ∧ b ≤ 0x7f then b - 0x60 + 1 else 0

/-- The loop body of `Executor::analyze_jumpdests` (fairvm executor.rs
lines 100-119), with an explicit fuel counter standing for the loop's
termination (each iteration advances `i` by at least one, so
`code.length` iterations suffice). -/
def analyzeGo (code : List Nat) : Nat → List Bool → Nat → List Bool
  | 0, jumpdests, _ => jumpdests
  | fuel + 1, jumpdests, i =>
    if i < code.length then
      let b := code.getD i 0
      let jd := if b = 0x5b then jumpdests.set i true else jumpdests
      analyzeGo code fuel jd (i + skipLen b + 1)
    else jumpdests

/-- Embedding of `Executor::analyze_jumpdests`. -/
def analyze_jumpdests (code : List Nat) : List Bool :=
  analyzeGo code code.length (List.replicate code.length false) 0

/-- The `while` loop of `Executor::execute` (fairvm executor.rs lines
65-97), with fuel: `none` means the loop has not terminated within `fuel`
iterations.  `Ok(false)` from any opcode (STOP, RETURN, and also JUMP and
a taken JUMPI in this crate) breaks the loop and yields the success
result. -/
def execLoop (code : List Nat) (jumpdests : List Bool) : Nat → Executor → Option ExecutionResult
  | 0, _ => none
  | fuel + 1, s =>
    if s.pc < code.length then
      match execute_opcode code jumpdests (code.getD s.pc 0) s with
      | (s', .ok shouldContinue) =>
        if shouldContinue then
          execLoop code jumpdests fuel { s' with pc := s'.pc + 1 }
        else some ⟨true, s'.gas_used, s'.return_data, none⟩
      | (s', .error e) => some ⟨false, s'.gas_used, [], some e⟩
    else some ⟨true, s.gas_used, s.return_data, none⟩

/-- Embedding of `Executor::execute` on a fresh executor with the given gas limit. -/
def execute (fuel gas_limit : Nat) (code : List Nat) : Option ExecutionResult :=
  execLoop code (analyze_jumpdests code) fuel (Executor.new gas_limit)

end FairVM

namespace Core

/-- Embedding of `Stack` from fair-vm-core/vm/stack.rs (the fairvm stack plus a
fairness-weight accumulator, bumped by one on each successful push or
pop).  Only the operations used by the embedded executor arms are
included.  `items` is top-first as in `FairVM.Stack`. -/
structure Stack where
  items : List Nat
  max_depth : Nat
  fairness_weight : Nat
deriving DecidableEq, Repr

/-- Embedding of `Stack::new`. -/
def Stack.new : Stack := ⟨[], 1024, 0⟩

/-- Embedding of `Stack::push`. -/
def Stack.push (s : Stack) (value : Nat) : Except FairVM.StackError Stack :=
  if s.items.length ≥ s.max_depth then .error .DepthLimitExceeded
  else .ok ⟨value :: s.items, s.max_depth, s.fairness_weight + 1⟩

/-- Embedding of `Stack::pop`. -/
def Stack.pop (s : Stack) : Except FairVM.StackError (Nat × Stack) :=
  match s.items with
  | [] => .error .Underflow
  | v :: rest => .ok (v, ⟨rest, s.max_depth, s.fairness_weight + 1⟩)

/-- Embedding of `Memory` from fair-vm-core/vm/memory.rs (the fairvm memory plus a
fairness-weight accumulator). -/
structure Memory where
  data : List Nat
  size : Nat
  fairness_weight : Nat
deriving DecidableEq, Repr

/-- Embedding of `Memory::new`. -/
def Memory.new : Memory := ⟨[], 0, 0⟩

/-- Embedding of `Memory::expand` (identical arithmetic to the fairvm copy; the gas
cost is additionally accumulated into `fairness_weight`). -/
def Memory.expand (m : Memory) (offset size : Nat) : Memory × Nat :=
  if size = 0 then (m, 0)
  else
    let old_size := m.size
    let new_size := max old_size (offset + size)
    let data :=
      if new_size > m.data.length
      then m.data ++ List.replicate (new_size - m.data.length) 0
      else m.data
    let old_words := (old_size + 31) / 32
    let new_words := (new_size + 31) / 32
    let gas :=
      if new_words ≤ old_words then 0
      else 3 * (new_words - old_words)
        + (new_words * new_words / 512 - old_words * old_words / 512)
    (⟨data, new_size, m.fairness_weight + gas⟩, gas)

/-- Embedding of `Memory::store32`.  (The executor calls it with `?`, but the function
is infallible; the `?` is modelled as the plain call.) -/
def Memory.store32 (m : Memory) (offset value : Nat) : Memory :=
  let m1 := (m.expand offset 32).1
  ⟨FairVM.listWrite m1.data offset (FairVM.beBytes 32 value), m1.size, m1.fairness_weight + 1⟩

/-- Embedding of `Memory::load32`. -/
def Memory.load32 (m : Memory) (offset : Nat) : Nat :=
  if offset + 32 > m.data.length then 0
  else FairVM.beValue ((m.data.drop offset).take 32)

/-- Embedding of `Memory::load`. -/
def Memory.load (m : Memory) (offset size : Nat) : List Nat :=
  if offset + size > m.data.length then List.replicate size 0
  else (m.data.drop offset).take size

/-- Modelled from the spec: `ExecutorError` is referenced by
fair-vm-core/vm/executor.rs but not defined under src/; its variants are
taken from the error taxonomy of spec section 7 restricted to the
constructors the executor source actually builds (`OutOfGas`,
`Stack(..)`, `InvalidOpcode(u8)`, `InvalidJumpdest`, `State(..)`). -/
inductive ExecutorError where
  | OutOfGas
  | Stack (e : FairVM.StackError)
  | InvalidOpcode (b : Nat)
  | InvalidJumpdest
  | State (msg : String)
deriving DecidableEq, Repr

/-- Embedding of `ExecutionContext` from fair-vm-core/vm/executor.rs (addresses are
20-byte lists). -/
structure ExecutionContext where
  caller : List Nat
  address : List Nat
  value : Nat
  data : List Nat
  gas_limit : Nat
  code : List Nat
  is_static : Bool
  fairness_weight : Nat
deriving DecidableEq, Repr

/-- Embedding of `ExecutionResult` from fair-vm-core/vm/executor.rs. -/
structure ExecutionResult where
  success : Bool
  gas_used : Nat
  return_data : List Nat
  error : Option ExecutorError
  fairness_score : Nat
deriving DecidableEq, Repr

/-- The external storage collaborator, as an association list from
(address, key) to value; `set_storage` inserts at the front and
`get_storage` reads the most recent binding (0 for an absent key), the
observable behaviour of the map-backed State. -/
abbrev StorageMap : Type := List ((List Nat × Nat) × Nat)

/-- Embedding of `state.get_storage(address, key)`. -/
def storageGet (st : StorageMap) (address : List Nat) (key : Nat) : Nat :=
  match List.find? (fun e => e.1 = (address, key)) st with
  | some e => e.2
  | none => 0

/-- Embedding of `state.set_storage(address, key, value)`. -/
def storageSet (st : StorageMap) (address : List Nat) (key value : Nat) : StorageMap :=
  ((address, key), value) :: st

/-- The mutable fields of `Executor` from fair-vm-core/vm/executor.rs,
together with the storage collaborator the opcodes read and write. -/
structure Executor where
  context : ExecutionContext
  memory : Memory
  stack : Stack
  pc : Nat
  gas_used : Nat
  gas_limit : Nat
  return_data : List Nat
  fairness_score : Nat
  storage : StorageMap
deriving DecidableEq, Repr

/-- Embedding of `Executor::new`. -/
def Executor.new (st : StorageMap) (context : ExecutionContext) : Executor :=
  ⟨context, Memory.new, Stack.new, 0, 0, context.gas_limit, [], 0, st⟩

/-- Modelled from the spec: the byte values recognized by
`Opcode::from_u8` (fair-vm-core's opcodes.rs is absent from src/); the
set is the opcode table of spec section 4.3, which coincides with the
discriminants of the fairvm enum together with the full
PUSH/DUP/SWAP ranges. -/
def recognized (b : Nat) : Bool :=
  b ≤ 0x0b ∨ (0x10 ≤ b ∧ b ≤ 0x1d) ∨ b = 0x20 ∨ (0x30 ≤ b ∧ b ≤ 0x48) ∨
  (0x50 ≤ b ∧ b ≤ 0x5b) ∨ (0x60 ≤ b ∧ b ≤ 0xa4) ∨ (0xf0 ≤ b ∧ b ≤ 0xf5) ∨
  b = 0xfa ∨ b = 0xfd ∨ b = 0xfe ∨ b = 0xff

/-- Modelled from the spec: `Opcode::from_u8` for the fair-vm-core copy
fails on an unrecognized byte (`ok_or(InvalidOpcode)` in the executor and
spec section 4.3). -/
def from_u8 (b : Nat) : Option Nat := if recognized b then some b else none

/-- State-passing embedding of `&mut self` computations in the
fair-vm-core `Executor::execute_opcode`. -/
def CM (α : Type) : Type := Executor → Executor × Except ExecutorError α

def CM.pure {α : Type} (a : α) : CM α := fun s => (s, .ok a)

def CM.fail {α : Type} (e : ExecutorError) : CM α := fun s => (s, .error e)

def CM.bind {α β : Type} (x : CM α) (f : α → CM β) : CM β := fun s =>
  match x s with
  | (s', .ok a) => f a s'
  | (s', .error e) => (s', .error e)

/-- Embedding of `Executor::use_gas` from fair-vm-core/vm/executor.rs lines 146-152. -/
def Executor.use_gas (s : Executor) (amount : Nat) : Except ExecutorError Executor :=
  if s.gas_used + amount > s.gas_limit then .error .OutOfGas
  else .ok { s with gas_used := s.gas_used + amount }

/-- Embedding of `self.use_gas(amount)?`. -/
def CM.useGas (amount : Nat) : CM Unit := fun s =>
  match s.use_gas amount with
  | .ok s' => (s', .ok ())
  | .error e => (s, .error e)

/-- Embedding of `Executor::update_fairness_score`. -/
def CM.updateFairness (weight : Nat) : CM Unit := fun s =>
  ({ s with fairness_score := s.fairness_score + weight }, .ok ())

/-- Embedding of `self.stack.pop()?`. -/
def CM.pop : CM Nat := fun s =>
  match s.stack.pop with
  | .ok (v, st) => ({ s with stack := st }, .ok v)
  | .error e => (s, .error (.Stack e))

/-- Embedding of `self.stack.push(v)?`. -/
def CM.push (v : Nat) : CM Unit := fun s =>
  match s.stack.push v with
  | .ok st => ({ s with stack := st }, .ok ())
  | .error e => (s, .error (.Stack e))

/-- Embedding of `self.memory.load32(offset)?` (the call is infallible). -/
def CM.load32 (offset : Nat) : CM Nat := fun s => (s, .ok (s.memory.load32 offset))

/-- Embedding of `self.memory.store32(offset, value)?` (the call is infallible). -/
def CM.store32 (offset value : Nat) : CM Unit := fun s =>
  ({ s with memory := s.memory.store32 offset value }, .ok ())

/-- Embedding of `state.get_storage(self.context.address, key)?`. -/
def CM.sload (key : Nat) : CM Nat := fun s =>
  (s, .ok (storageGet s.storage s.context.address key))

/-- Embedding of `state.set_storage(self.context.address, key, value)?`. -/
def CM.sstore (key value : Nat) : CM Unit := fun s =>
  ({ s with storage := storageSet s.storage s.context.address key value }, .ok ())

/-- The body of the `Opcode::JUMP` arm after popping the destination
(fair-vm-core executor.rs lines 354-366); also used by a taken JUMPI. -/
def CM.jumpTo (code : List Nat) (jumpdests : List Bool) (dest : Nat) : CM Bool := fun s =>
  if dest ≥ code.length ∨ ¬ jumpdests.getD dest false then (s, .error .InvalidJumpdest)
  else ({ s with pc := dest }, .ok false)

/-- Embedding of `self.return_data = self.memory.load(offset, size)?`. -/
def CM.returnFromMemory (offset size : Nat) : CM Unit := fun s =>
  ({ s with return_data := s.memory.load offset size }, .ok ())

/-- The `Opcode::SSTORE` arm (fair-vm-core executor.rs lines 337-351):
a static context fails before popping or writing anything. -/
def CM.sstoreOp : CM Bool := fun s =>
  if s.context.is_static then (s, .error (.State "静态调用中不允许修改存储"))
  else
    (CM.bind CM.pop (fun key => CM.bind CM.pop (fun value =>
      CM.bind (CM.sstore key value) (fun _ => CM.pure true)))) s

/-- The `Opcode::PC` arm: push the current program counter. -/
def CM.pcOp : CM Bool := fun s =>
  (CM.bind (CM.push s.pc) (fun _ => CM.pure true)) s

/-- The `Opcode::MSIZE` arm: push the current memory size. -/
def CM.msizeOp : CM Bool := fun s =>
  (CM.bind (CM.push s.memory.size) (fun _ => CM.pure true)) s

/-- The `Opcode::GAS` arm: push the remaining gas. -/
def CM.gasOp : CM Bool := fun s =>
  (CM.bind (CM.push (s.gas_limit - s.gas_used)) (fun _ => CM.pure true)) s

/-- Embedding of `Executor::execute_opcode` from fair-vm-core/vm/executor.rs, with the
missing opcode table supplied as parameters: `gas_cost` and
`fairness_weight` are the per-opcode tables of the absent opcodes.rs
(modelled from the spec as arbitrary deterministic byte-indexed tables).
The match arms are exactly those present in the source: note the absence
of any PUSH/DUP/SWAP arm, so those bytes fall to `InvalidOpcode`. -/
def execute_opcode (gas_cost fairness_weight : Nat → Nat)
    (code : List Nat) (jumpdests : List Bool) (op : Nat) : CM Bool :=
  match from_u8 op with
  | none => CM.fail (.InvalidOpcode op)
  | some _ =>
    CM.bind (CM.useGas (gas_cost op)) (fun _ =>
    CM.bind (CM.updateFairness (fairness_weight op)) (fun _ =>
    if op = 0x00 then CM.pure false
    else if op = 0x01 then
      CM.bind CM.pop (fun a => CM.bind CM.pop (fun b =>
        CM.bind (CM.push (FairVM.U256.add a b)) (fun _ => CM.pure true)))
    else if op = 0x02 then
      CM.bind CM.pop (fun a => CM.bind CM.pop (fun b =>
        CM.bind (CM.push (FairVM.U256.mul a b)) (fun _ => CM.pure true)))
    else if op = 0x03 then
      CM.bind CM.pop (fun a => CM.bind CM.pop (fun b =>
        CM.bind (CM.push (FairVM.U256.sub a b)) (fun _ => CM.pure true)))
    else if op = 0x04 then
      CM.bind CM.pop (fun a => CM.bind CM.pop (fun b =>
        CM.bind (CM.push (if b = 0 then 0 else a / b)) (fun _ => CM.pure true)))
    else if op = 0x06 then
      CM.bind CM.pop (fun a => CM.bind CM.pop (fun b =>
        CM.bind (CM.push (if b = 0 then 0 else a % b)) (fun _ => CM.pure true)))
    else if op = 0x10 then
      CM.bind CM.pop (fun a => CM.bind CM.pop (fun b =>
        CM.bind (CM.push (if a < b then 1 else 0)) (fun _ => CM.pure true)))
    else if op = 0x11 then
      CM.bind CM.pop (fun a => CM.bind CM.pop (fun b =>
        CM.bind (CM.push (if a > b then 1 else 0)) (fun _ => CM.pure true)))
    else if op = 0x14 then
      CM.bind CM.pop (fun a => CM.bind CM.pop (fun b =>
        CM.bind (CM.push (if a = b then 1 else 0)) (fun _ => CM.pure true)))
    else if op = 0x15 then
      CM.bind CM.pop (fun a =>
        CM.bind (CM.push (if a = 0 then 1 else 0)) (fun _ => CM.pure true))
    else if op = 0x16 then
      CM.bind CM.pop (fun a => CM.bind CM.pop (fun b =>
        CM.bind (CM.push (Nat.land a b)) (fun _ => CM.pure true)))
    else if op = 0x17 then
      CM.bind CM.pop (fun a => CM.bind CM.pop (fun b =>
        CM.bind (CM.push (Nat.lor a b)) (fun _ => CM.pure true)))
    else if op = 0x18 then
      CM.bind CM.pop (fun a => CM.bind CM.pop (fun b =>
        CM.bind (CM.push (Nat.xor a b)) (fun _ => CM.pure true)))
    else if op = 0x19 then
      CM.bind CM.pop (fun a =>
        CM.bind (CM.push (FairVM.U256.not a)) (fun _ => CM.pure true))
    else if op = 0x1a then
      CM.bind CM.pop (fun i => CM.bind CM.pop (fun x =>
        CM.bind (CM.push (if i ≥ 32 then 0
          else Nat.land (Nat.shiftRight x ((31 - i) * 8)) 0xff)) (fun _ => CM.pure true)))
    else if op = 0x50 then
      CM.bind CM.pop (fun _ => CM.pure true)
    else if op = 0x51 then
      CM.bind CM.pop (fun offset =>
        CM.bind (CM.load32 offset) (fun value =>
          CM.bind (CM.push value) (fun _ => CM.pure true)))
    else if op = 0x52 then
      CM.bind CM.pop (fun offset => CM.bind CM.pop (fun value =>
        CM.bind (CM.store32 offset value) (fun _ => CM.pure true)))
    else if op = 0x54 then
      CM.bind CM.pop (fun key =>
        CM.bind (CM.sload key) (fun value =>
          CM.bind (CM.push value) (fun _ => CM.pure true)))
    else if op = 0x55 then CM.sstoreOp
    else if op = 0x56 then
      CM.bind CM.pop (fun dest => CM.jumpTo code jumpdests dest)
    else if op = 0x57 then
      CM.bind CM.pop (fun dest => CM.bind CM.pop (fun condition =>
        if condition ≠ 0 then CM.jumpTo code jumpdests dest else CM.pure true))
    else if op = 0x58 then CM.pcOp
    else if op = 0x59 then CM.msizeOp
    else if op = 0x5a then CM.gasOp
    else if op = 0x5b then CM.pure true
    else if op = 0xf3 then
      CM.bind CM.pop (fun offset => CM.bind CM.pop (fun size =>
        CM.bind (CM.returnFromMemory offset size) (fun _ => CM.pure false)))
    else if op = 0xfd then
      CM.bind CM.pop (fun offset => CM.bind CM.pop (fun size =>
        CM.bind (CM.returnFromMemory offset size) (fun _ => CM.pure false)))
    else CM.fail (.InvalidOpcode op)))

/-- The loop body of the fair-vm-core `Executor::analyze_jumpdests`
(executor.rs lines 126-143): identical marking to the fairvm copy,
written with the source's `i += 1 + bytes_to_push` step. -/
def analyzeGo (code : List Nat) : Nat → List Bool → Nat → List Bool
  | 0, jumpdests, _ => jumpdests
  | fuel + 1, jumpdests, i =>
    if i < code.length then
      let b := code.getD i 0
      let jd := if b = 0x5b then jumpdests.set i true else jumpdests
      if 0x60 ≤ b ∧ b ≤ 0x7f then analyzeGo code fuel jd (i + 1 + (b - 0x60 + 1))
      else analyzeGo code fuel jd (i + 1)
    else jumpdests

/-- Embedding of `Executor::analyze_jumpdests` (fair-vm-core copy). -/
def analyze_jumpdests (code : List Nat) : List Bool :=
  analyzeGo code code.length (List.replicate code.length false) 0

/-- The `while` loop of the fair-vm-core `Executor::execute` (executor.rs
lines 85-123): `Ok(true)` advances `pc`; `Ok(false)` breaks only for STOP
or RETURN and otherwise continues the loop at the current `pc` (the
jump-continuation behaviour). -/
def execLoop (gas_cost fairness_weight : Nat → Nat) (code : List Nat)
    (jumpdests : List Bool) : Nat → Executor → Option ExecutionResult
  | 0, _ => none
  | fuel + 1, s =>
    if s.pc < code.length then
      let op := code.getD s.pc 0
      match execute_opcode gas_cost fairness_weight code jumpdests op s with
      | (s', .ok true) =>
        execLoop gas_cost fairness_weight code jumpdests fuel { s' with pc := s'.pc + 1 }
      | (s', .ok false) =>
        if op = 0x00 ∨ op = 0xf3 then
          some ⟨true, s'.gas_used, s'.return_data, none, s'.fairness_score⟩
        else execLoop gas_cost fairness_weight code jumpdests fuel s'
      | (s', .error e) => some ⟨false, s'.gas_used, [], some e, s'.fairness_score⟩
    else some ⟨true, s.gas_used, s.return_data, none, s.fairness_score⟩

/-- Embedding of `Executor::execute` (fair-vm-core copy) on a fresh executor. -/
def execute (gas_cost fairness_weight : Nat → Nat) (fuel : Nat)
    (st : StorageMap) (context : ExecutionContext) (code : List Nat) :
    Option ExecutionResult :=
  execLoop gas_cost fairness_weight code (analyze_jumpdests code) fuel
    (Executor.new st context)

end Core

namespace FairVM

/-- The four precompiled contract implementations of
fairvm/src/evm/precompiled.rs, as tags for the registry. -/
inductive Precompile where
  | EcRecover
  | Sha256Hash
  | Ripemd160Hash
  | Identity
deriving DecidableEq, Repr

/-- Embedding of `precompiled_contracts` from fairvm/src/evm/precompiled.rs lines
19-38: the address-to-contract binding list (addresses are the literal
20-byte arrays of the source). -/
def precompiled_contracts : List (List Nat × Precompile) :=
  [ (List.replicate 20 0, .EcRecover),
    ([0, 0, 0, 0, 0, 0, 0, 0, 0, 0, 0, 0, 0, 0, 0, 0, 0, 0, 0, 2], .Sha256Hash),
    ([0, 0, 0, 0, 0, 0, 0, 0, 0, 0, 0, 0, 0, 0, 0, 0, 0, 0, 0, 3], .Ripemd160Hash),
    ([0, 0, 0, 0, 0, 0, 0, 0, 0, 0, 0, 0, 0, 0, 0, 0, 0, 0, 0, 4], .Identity) ]

/-- Embedding of `EcRecover::gas_cost`: fixed 3000 regardless of the input. -/
def EcRecover.gas_cost (_input : List Nat) : Nat := 3000

/-- Embedding of `EcRecover::execute` from fairvm/src/evm/precompiled.rs lines 47-102.
Everything from signature parsing onwards calls the external `secp256k1`
and `sha3` crates; that pipeline (recover the public key from the 32-byte
digest, the recovery id bit and the 64-byte compact signature, then
keccak and zero-pad the address) is abstracted as the `recover`
parameter.  `Message::from_digest_slice` on the 32-byte slice
`input[0..32]` cannot fail and is modelled as succeeding. -/
def EcRecover.execute (recover : List Nat → Nat → List Nat → Except String (List Nat))
    (input : List Nat) (gas_limit : Nat) : Except String (List Nat × Nat) :=
  let gas_cost := EcRecover.gas_cost input
  if gas_cost > gas_limit then .error "Gas limit exceeded"
  else if input.length < 128 then .ok (List.replicate 32 0, gas_cost)
  else
    let hash := input.take 32
    let v := input.getD 32 0
    let r := (input.drop 33).take 32
    let s := (input.drop 65).take 32
    if v = 27 ∨ v = 28 then
      match recover hash (if v = 27 then 0 else 1) (r ++ s) with
      | .ok result => .ok (result, gas_cost)
      | .error e => .error e
    else .error (String.append "Invalid recovery ID: " (toString v))

/-- Embedding of `Sha256Hash::gas_cost`. -/
def Sha256Hash.gas_cost (input : List Nat) : Nat :=
  60 + 12 * ((input.length + 31) / 32)

/-- Embedding of `Ripemd160Hash::gas_cost`. -/
def Ripemd160Hash.gas_cost (input : List Nat) : Nat :=
  600 + 120 * ((input.length + 31) / 32)

/-- Embedding of `Identity::gas_cost`. -/
def Identity.gas_cost (input : List Nat) : Nat :=
  15 + 3 * ((input.length + 31) / 32)

/-- Embedding of `Identity::execute`. -/
def Identity.execute (input : List Nat) (gas_limit : Nat) :
    Except String (List Nat × Nat) :=
  let gas_cost := Identity.gas_cost input
  if gas_cost > gas_limit then .error "Gas limit exceeded"
  else .ok (input, gas_cost)

/-- Embedding of `Account` from fairvm/src/account.rs (the fields the deployment
driver reads). -/
structure Account where
  address : List Nat
  balance : Nat
  nonce : Nat
  code_hash : Nat
deriving DecidableEq, Repr

/-- The account table of `State` (fairvm/src/state.rs), as an association
list from 20-byte addresses to accounts. -/
abbrev StateMap : Type := List (List Nat × Account)

/-- Embedding of `State::get_account`. -/
def State.get_account (st : StateMap) (address : List Nat) : Option Account :=
  (List.find? (fun e => e.1 = address) st).map (fun e => e.2)

/-- Embedding of `Evm::get_nonce` from fairvm/src/evm/mod.rs lines 149-157:
`get_account(..).map(|a| a.nonce).unwrap_or(0)`. -/
def Evm.get_nonce (st : StateMap) (address : List Nat) : Nat :=
  ((State.get_account st address).map (fun a => a.nonce)).getD 0

/-- Embedding of `Evm::generate_contract_address` from fairvm/src/evm/mod.rs lines
163-172, with the external `sha3::Keccak256` digest abstracted as the
`keccak` parameter (a function from the hashed byte stream to the 32-byte
digest): hash the creator's 20 address bytes followed by
`nonce.to_be_bytes()` (the raw 8-byte big-endian encoding of the u64
nonce), and keep digest bytes 12..32. -/
def Evm.generate_contract_address (keccak : List Nat → List Nat)
    (creator : List Nat) (nonce : Nat) : List Nat :=
  ((keccak (creator ++ beBytes 8 nonce)).drop 12).take 20

/-- The address computation performed by `Evm::deploy_contract`
(fairvm/src/evm/mod.rs lines 98-121): the nonce is read from the state
collaborator and fed to `generate_contract_address`. -/
def Evm.deploy_address (keccak : List Nat → List Nat) (st : StateMap)
    (caller : List Nat) : List Nat :=
  Evm.generate_contract_address keccak caller (Evm.get_nonce st caller)

/-- Spec-side definition for claim C9, written from the claim's words:
"bytes 12..32 of keccak256 over the creator's 20 address bytes
concatenated with the creator's current nonce encoded as raw big-endian
bytes (no RLP encoding), where the nonce is read from the external state
collaborator (0 when the creator account does not exist)".  The raw
big-endian encoding of the 64-bit nonce is spelled out digit by digit. -/
def specNonceBytes (n : Nat) : List Nat :=
  [n / 2 ^ 56 % 256, n / 2 ^ 48 % 256, n / 2 ^ 40 % 256, n / 2 ^ 32 % 256,
   n / 2 ^ 24 % 256, n / 2 ^ 16 % 256, n / 2 ^ 8 % 256, n % 256]

/-- Spec-side contract-address derivation for claim C9 (see
`specNonceBytes`). -/
def specContractAddress (keccak : List Nat → List Nat) (st : StateMap)
    (creator : List Nat) : List Nat :=
  let nonce :=
    match State.get_account st creator with
    | some a => a.nonce
    | none => 0
  ((keccak (creator ++ specNonceBytes nonce)).drop 12).take 20

/-- Harness for claim C7: the mutating operations of the fairvm `Stack`
API.  A failing operation leaves the Rust stack unchanged, so `applyOp`
keeps the prior stack on an error. -/
inductive StackOp where
  | pushOp (v : Nat)
  | popOp
  | dupOp (i : Nat)
  | swapOp (i : Nat)
  | setOp (i v : Nat)
  | clearOp
deriving DecidableEq, Repr

/-- Run one stack operation, keeping the prior stack on failure. -/
def applyOp (s : Stack) : StackOp → Stack
  | .pushOp v => match s.push v with | .ok s' => s' | .error _ => s
  | .popOp => match s.pop with | .ok p => p.2 | .error _ => s
  | .dupOp i => match s.dup i with | .ok s' => s' | .error _ => s
  | .swapOp i => match s.swap i with | .ok s' => s' | .error _ => s
  | .setOp i v => match s.set i v with | .ok s' => s' | .error _ => s
  | .clearOp => s.clear

/-- Run a sequence of stack operations. -/
def applyOps (s : Stack) (ops : List StackOp) : Stack := ops.foldl applyOp s

/-- The instruction positions visited by the jump-destination scan:
`Scanned code i j` holds when the linear scan started at offset `i`
reaches offset `j` (each step advances past a PUSH's operand bytes). -/
inductive Scanned (code : List Nat) : Nat → Nat → Prop where
  | here (i : Nat) : Scanned code i i
  | next (i j : Nat) (h : i < code.length)
      (hs : Scanned code (i + skipLen (code.getD i 0) + 1) j) : Scanned code i j

/-- A computation preserves the gas invariant: it never pushes `gas_used`
past `gas_limit` and never changes `gas_limit`. -/
def EM.PreservesGas {α : Type} (x : EM α) : Prop :=
  ∀ s : Executor, s.gas_used ≤ s.gas_limit →
    (x s).1.gas_used ≤ (x s).1.gas_limit ∧ (x s).1.gas_limit = s.gas_limit

end FairVM

namespace Core

/-- A fair-vm-core computation preserves the gas invariant. -/
def CM.PreservesGas {α : Type} (x : CM α) : Prop :=
  ∀ s : Executor, s.gas_used ≤ s.gas_limit →
    (x s).1.gas_used ≤ (x s).1.gas_limit ∧ (x s).1.gas_limit = s.gas_limit

end Core

namespace FairVM

/-- C10: the precompile registry has exactly four entries; the
signature-recovery precompile is bound to the all-zero address (not the
conventional address ending in 0x01), and SHA-256, RIPEMD-160 and
identity are bound to the addresses ending in 0x02, 0x03 and 0x04. -/
theorem precompile_registry_bindings :
    precompiled_contracts.length = 4
  ∧ (precompiled_contracts.find? (fun e => decide (e.2 = .EcRecover))).map (fun e => e.1)
      = some (List.replicate 20 0)
  ∧ List.replicate 20 0 ≠ List.replicate 19 0 ++ [1]
  ∧ (precompiled_contracts.find? (fun e => decide (e.2 = .Sha256Hash))).map (fun e => e.1)
      = some (List.replicate 19 0 ++ [2])
  ∧ (precompiled_contracts.find? (fun e => decide (e.2 = .Ripemd160Hash))).map (fun e => e.1)
      = some (List.replicate 19 0 ++ [3])
  ∧ (precompiled_contracts.find? (fun e => decide (e.2 = .Identity))).map (fun e => e.1)
      = some (List.replicate 19 0 ++ [4]) := by
  decide

/-- C8: the signature-recovery precompile's gas cost is 3000 for every
input; with a gas limit of at least 3000, an input shorter than 128 bytes
yields success with an all-zero 32-byte output and exactly 3000 gas; an
input of at least 128 bytes whose recovery-id byte is neither 27 nor 28
yields an error. -/
theorem ecrecover_contract :
    (∀ input : List Nat, EcRecover.gas_cost input = 3000)
  ∧ (∀ (recover : List Nat → Nat → List Nat → Except String (List Nat))
        (input : List Nat) (gas_limit : Nat),
      input.length < 128 → 3000 ≤ gas_limit →
      EcRecover.execute recover input gas_limit = .ok (List.replicate 32 0, 3000))
  ∧ (∀ (recover : List Nat → Nat → List Nat → Except String (List Nat))
        (input : List Nat) (gas_limit : Nat),
      128 ≤ input.length → input.getD 32 0 ≠ 27 → input.getD 32 0 ≠ 28 →
      3000 ≤ gas_limit →
      ∃ e, EcRecover.execute recover input gas_limit = .error e) := by
  refine ⟨fun _ => rfl, ?_, ?_⟩
  · intro recover input gas_limit hlen hgas
    simp only [EcRecover.execute, EcRecover.gas_cost]
    rw [if_neg (by omega), if_pos hlen]
  · intro recover input gas_limit hlen h27 h28 hgas
    simp only [EcRecover.execute, EcRecover.gas_cost]
    rw [if_neg (by omega), if_neg (by omega),
      if_neg (by
        simp only [not_or, List.getD_eq_getElem?_getD] at h27 h28 ⊢
        exact ⟨h27, h28⟩)]
    exact ⟨_, rfl⟩

/-- Witness for `ecrecover_contract` at concrete inputs. -/
theorem ecrecover_contract_witness :
    EcRecover.execute (fun _ _ _ => .error "") [] 3000
      = .ok (List.replicate 32 0, 3000)
  ∧ ∃ e, EcRecover.execute (fun _ _ _ => .error "") (List.replicate 128 0) 3000
      = .error e := by
  constructor
  · exact ecrecover_contract.2.1 (fun _ _ _ => .error "") [] 3000 (by decide) (by decide)
  · exact ecrecover_contract.2.2 (fun _ _ _ => .error "") (List.replicate 128 0) 3000
      (by decide) (by decide) (by decide) (by decide)

end FairVM

namespace FairVM

/-- Counterexample for C5: `expand(100, 0)` is a no-op (size stays 0),
but `max(size_before, offset + size) = 100`, so the claimed size equation
fails when `size = 0` and `offset` exceeds the current size. -/
theorem expand_zero_size_counterexample :
    Memory.new.expand 100 0 = (Memory.new, 0)
  ∧ (Memory.new.expand 100 0).1.size = 0
  ∧ ¬ ((Memory.new.expand 100 0).1.size = max Memory.new.size (100 + 0)) := by
  decide

/-- C5 (amended): for `size ≠ 0`, `expand(offset, size)` sets the
memory's size to `max(size_before, offset + size)`; a call whose
resulting word count does not exceed the current one returns zero
marginal gas cost; and `expand` with `size = 0` is a no-op returning zero
cost. -/
theorem expand_size_and_marginal_cost (m : Memory) (offset size : Nat) :
    (size ≠ 0 → (m.expand offset size).1.size = max m.size (offset + size))
  ∧ (size = 0 → m.expand offset size = (m, 0))
  ∧ ((max m.size (offset + size) + 31) / 32 ≤ (m.size + 31) / 32 →
      (m.expand offset size).2 = 0) := by
  refine ⟨?_, ?_, ?_⟩
  · intro h
    simp only [Memory.expand, if_neg h]
  · intro h
    simp only [Memory.expand, if_pos h]
  · intro h
    by_cases hz : size = 0
    · simp only [Memory.expand, if_pos hz]
    · simp only [Memory.expand, if_neg hz, if_pos h]

/-- Witness for `expand_size_and_marginal_cost` at concrete inputs. -/
theorem expand_size_and_marginal_cost_witness :
    ((Memory.new.expand 0 32).1.size = max Memory.new.size (0 + 32))
  ∧ (Memory.new.expand 5 0 = (Memory.new, 0))
  ∧ (((⟨List.replicate 64 0, 64⟩ : Memory).expand 0 32).2 = 0) := by
  refine ⟨?_, ?_, ?_⟩
  · exact (expand_size_and_marginal_cost Memory.new 0 32).1 (by decide)
  · exact (expand_size_and_marginal_cost Memory.new 5 0).2.1 rfl
  · exact (expand_size_and_marginal_cost ⟨List.replicate 64 0, 64⟩ 0 32).2.2 (by decide)

/-- Counterexample for C6: after `store(0, [1])` the buffer holds the
byte 1, yet `load(0, 2)` — a partially out-of-range read — returns
`[0, 0]`, not the claimed "backed bytes as stored followed by zeros"
`[1, 0]`. -/
theorem load_partial_range_counterexample :
    (Memory.new.store 0 [1]).data = [1]
  ∧ (Memory.new.store 0 [1]).load 0 2 = [0, 0]
  ∧ ¬ ((Memory.new.store 0 [1]).load 0 2 = [1, 0]) := by
  decide

/-- C6 (amended): `load(offset, size)` always returns exactly `size`
bytes and never fails; a range extending past the backing buffer returns
all zeros (the in-range prefix is not preserved); a fully in-range load
returns the stored bytes; never-written memory reads as zeros; and
`load32` at an offset not fully backed by the buffer returns zero. -/
theorem load_zero_fill (m : Memory) (offset size : Nat) :
    ((m.load offset size).length = size)
  ∧ (m.data.length < offset + size → m.load offset size = List.replicate size 0)
  ∧ (offset + size ≤ m.data.length → m.load offset size = (m.data.drop offset).take size)
  ∧ (Memory.new.load offset size = List.replicate size 0)
  ∧ (m.data.length < offset + 32 → m.load32 offset = 0) := by
  refine ⟨?_, ?_, ?_, ?_, ?_⟩
  · simp only [Memory.load]
    split
    · simp
    · have h : offset + size ≤ m.data.length := by omega
      simp only [List.length_take, List.length_drop]
      omega
  · intro h
    simp only [Memory.load, if_pos (by omega : offset + size > m.data.length)]
  · intro h
    simp only [Memory.load, if_neg (by omega : ¬ offset + size > m.data.length)]
  · simp only [Memory.load, Memory.new]
    split
    · rfl
    · rename_i hcond
      have hs : size = 0 := by
        simp only [List.length_nil] at hcond
        omega
      subst hs
      simp
  · intro h
    simp only [Memory.load32, if_pos (by omega : offset + 32 > m.data.length)]

/-- Witness for `load_zero_fill` at concrete inputs. -/
theorem load_zero_fill_witness :
    ((⟨[7], 1⟩ : Memory).load 0 3).length = 3
  ∧ ((⟨[7], 1⟩ : Memory).load 0 3 = List.replicate 3 0)
  ∧ ((⟨[7, 8], 2⟩ : Memory).load 0 2 = (([7, 8] : List Nat).drop 0).take 2)
  ∧ ((⟨[7], 1⟩ : Memory).load32 0 = 0) := by
  refine ⟨?_, ?_, ?_, ?_⟩
  · exact (load_zero_fill ⟨[7], 1⟩ 0 3).1
  · exact (load_zero_fill ⟨[7], 1⟩ 0 3).2.1 (by decide)
  · exact (load_zero_fill ⟨[7, 8], 2⟩ 0 2).2.2.1 (by decide)
  · exact (load_zero_fill ⟨[7], 1⟩ 0 3).2.2.2.2 (by decide)

end FairVM

namespace FairVM

/-- A single stack operation preserves the depth invariant and never
changes the configured maximum depth. -/
theorem applyOp_depth (s : Stack) (o : StackOp) (h : s.items.length ≤ s.max_depth) :
    (applyOp s o).items.length ≤ (applyOp s o).max_depth
  ∧ (applyOp s o).max_depth = s.max_depth := by
  cases o with
  | pushOp v =>
    simp only [applyOp, Stack.push]
    split
    · rename_i hfull
      split at hfull
      · simp_all
      · rename_i hlt
        cases hfull
        simp only [List.length_cons]
        constructor
        · omega
        · trivial
    · rename_i e hfull
      exact ⟨h, by trivial⟩
  | popOp =>
    simp only [applyOp, Stack.pop]
    cases hi : s.items with
    | nil => simp [h]
    | cons v rest =>
      simp only []
      constructor
      · have := congrArg List.length hi
        simp at this
        omega
      · trivial
  | dupOp i =>
    simp only [applyOp, Stack.dup, Stack.push]
    split
    · rename_i hok
      split at hok
      · simp at hok
      · split at hok
        · simp at hok
        · rename_i hlt
          cases hok
          simp only [List.length_cons]
          constructor
          · omega
          · trivial
    · exact ⟨h, by trivial⟩
  | swapOp i =>
    simp only [applyOp, Stack.swap]
    split
    · rename_i hok
      split at hok
      · simp at hok
      · cases hok
        simp only [List.length_set]
        exact ⟨h, by trivial⟩
    · exact ⟨h, by trivial⟩
  | setOp i v =>
    simp only [applyOp, Stack.set]
    split
    · rename_i hok
      split at hok
      · simp at hok
      · cases hok
        simp only [List.length_set]
        exact ⟨h, by trivial⟩
    · exact ⟨h, by trivial⟩
  | clearOp =>
    simp only [applyOp, Stack.clear, List.length_nil]
    exact ⟨Nat.zero_le _, by trivial⟩

/-- C7: a push onto a stack whose length equals the configured maximum
depth fails with the depth-limit error (leaving the stack as it was); the
default maximum depth is 1024; and any sequence of stack operations
preserves "length never exceeds the maximum depth". -/
theorem stack_depth_bound :
    (∀ (s : Stack) (v : Nat), s.items.length = s.max_depth →
      s.push v = .error .DepthLimitExceeded)
  ∧ (Stack.new.max_depth = 1024 ∧ Stack.new.items = [])
  ∧ (∀ (ops : List StackOp) (s : Stack), s.items.length ≤ s.max_depth →
      (applyOps s ops).items.length ≤ (applyOps s ops).max_depth
    ∧ (applyOps s ops).max_depth = s.max_depth) := by
  refine ⟨?_, ⟨rfl, rfl⟩, ?_⟩
  · intro s v h
    simp only [Stack.push, if_pos (by omega : s.items.length ≥ s.max_depth)]
  · intro ops
    induction ops with
    | nil => intro s h; exact ⟨h, rfl⟩
    | cons o rest ih =>
      intro s h
      have h1 := applyOp_depth s o h
      have h2 := ih (applyOp s o) h1.1
      simp only [applyOps, List.foldl_cons] at h2 ⊢
      exact ⟨h2.1, h2.2.trans h1.2⟩

/-- Witness for `stack_depth_bound` at concrete inputs. -/
theorem stack_depth_bound_witness :
    ((⟨[5], 1⟩ : Stack).push 9 = .error .DepthLimitExceeded)
  ∧ ((applyOps ⟨[5], 1⟩ [.pushOp 1, .pushOp 2, .popOp]).items.length
      ≤ (applyOps ⟨[5], 1⟩ [.pushOp 1, .pushOp 2, .popOp]).max_depth) := by
  constructor
  · exact stack_depth_bound.1 ⟨[5], 1⟩ 9 rfl
  · exact (stack_depth_bound.2.2 [.pushOp 1, .pushOp 2, .popOp] ⟨[5], 1⟩ (by decide)).1

end FairVM

namespace FairVM

/-- The source's `nonce.to_be_bytes()` embedding agrees with the
digit-by-digit big-endian encoding used by the spec-side definition. -/
theorem beBytes_eight (n : Nat) : beBytes 8 n = specNonceBytes n := by
  simp only [beBytes, specNonceBytes, List.range_succ, List.range_zero,
    List.map_append, List.map_cons, List.map_nil, List.nil_append,
    List.cons_append]
  norm_num

/-- C9: the deployment driver derives the new contract address as bytes
12..32 of keccak256 over the creator's 20 address bytes concatenated with
the creator's current nonce encoded as raw big-endian bytes (no RLP
encoding), the nonce being read from the external state collaborator with
0 for an absent account — i.e. the source derivation agrees with the
spec-side definition for every keccak function, state and creator. -/
theorem contract_address_derivation :
    (∀ (keccak : List Nat → List Nat) (creator : List Nat) (nonce : Nat),
      Evm.generate_contract_address keccak creator nonce
        = ((keccak (creator ++ specNonceBytes nonce)).drop 12).take 20)
  ∧ (∀ (keccak : List Nat → List Nat) (st : StateMap) (caller : List Nat),
      Evm.deploy_address keccak st caller = specContractAddress keccak st caller)
  ∧ (∀ (st : StateMap) (caller : List Nat),
      State.get_account st caller = none → Evm.get_nonce st caller = 0) := by
  refine ⟨?_, ?_, ?_⟩
  · intro keccak creator nonce
    simp only [Evm.generate_contract_address, beBytes_eight]
  · intro keccak st caller
    simp only [Evm.deploy_address, Evm.generate_contract_address, beBytes_eight,
      specContractAddress, Evm.get_nonce]
    cases State.get_account st caller <;> simp
  · intro st caller h
    simp only [Evm.get_nonce, h, Option.map_none', Option.getD_none]

/-- Witness for `contract_address_derivation` (third conjunct has a
hypothesis): on the empty state the nonce read is 0. -/
theorem contract_address_derivation_witness :
    Evm.get_nonce [] [1, 2] = 0 :=
  contract_address_derivation.2.2 [] [1, 2] rfl

end FairVM

namespace Core

/-- C4: executing SSTORE (byte 0x55) with `is_static = true` fails with
the static-violation error before popping anything or touching storage:
with the gas charge in budget the step returns exactly the gas- and
fairness-charged state together with the `State` error, and in every case
the storage after the step equals the storage before it. -/
theorem sstore_static_violation
    (gas_cost fairness_weight : Nat → Nat) (code : List Nat) (jumpdests : List Bool)
    (s : Executor) (hstatic : s.context.is_static = true) :
    (s.gas_used + gas_cost 0x55 ≤ s.gas_limit →
      execute_opcode gas_cost fairness_weight code jumpdests 0x55 s
        = ({ s with
              gas_used := s.gas_used + gas_cost 0x55,
              fairness_score := s.fairness_score + fairness_weight 0x55 },
           .error (.State "静态调用中不允许修改存储")))
  ∧ (execute_opcode gas_cost fairness_weight code jumpdests 0x55 s).1.storage
      = s.storage
  ∧ (∃ e, (execute_opcode gas_cost fairness_weight code jumpdests 0x55 s).2
      = .error e) := by
  have hrec : from_u8 0x55 = some 0x55 := by decide
  by_cases hg : s.gas_used + gas_cost 0x55 > s.gas_limit
  · refine ⟨fun hgas => absurd hgas (by omega), ?_, ?_⟩
    · simp only [execute_opcode, hrec, CM.bind, CM.useGas, Executor.use_gas, if_pos hg]
    · simp only [execute_opcode, hrec, CM.bind, CM.useGas, Executor.use_gas, if_pos hg]
      exact ⟨.OutOfGas, rfl⟩
  · have key : execute_opcode gas_cost fairness_weight code jumpdests 0x55 s
        = ({ s with
              gas_used := s.gas_used + gas_cost 0x55,
              fairness_score := s.fairness_score + fairness_weight 0x55 },
           .error (.State "静态调用中不允许修改存储")) := by
      simp only [execute_opcode, hrec, CM.bind, CM.useGas, Executor.use_gas,
        if_neg hg, CM.updateFairness]
      norm_num [hstatic, CM.sstoreOp]
    exact ⟨fun _ => key, by rw [key], ⟨_, by rw [key]⟩⟩

/-- Witness for `sstore_static_violation` at a concrete static context. -/
theorem sstore_static_violation_witness :
    execute_opcode (fun _ => 0) (fun _ => 0) [] [] 0x55
        (Executor.new [] ⟨[], [], 0, [], 100, [], true, 0⟩)
      = (Executor.new [] ⟨[], [], 0, [], 100, [], true, 0⟩,
         .error (.State "静态调用中不允许修改存储")) := by
  have h := (sstore_static_violation (fun _ => 0) (fun _ => 0) [] []
      (Executor.new [] ⟨[], [], 0, [], 100, [], true, 0⟩) rfl).1 (by decide)
  exact h.trans (by rfl)

end Core

namespace FairVM

/-- A computation whose result state keeps `gas_used` and `gas_limit`
unchanged preserves the gas invariant. -/
theorem EM.pg_of_gasEq {α : Type} {x : EM α}
    (hx : ∀ s, (x s).1.gas_used = s.gas_used ∧ (x s).1.gas_limit = s.gas_limit) :
    x.PreservesGas := by
  intro s h
  rw [(hx s).1, (hx s).2]
  exact ⟨h, rfl⟩

theorem EM.pure_pg {α : Type} (a : α) : (EM.pure a).PreservesGas :=
  EM.pg_of_gasEq (fun _ => ⟨rfl, rfl⟩)

theorem EM.fail_pg {α : Type} (e : ExecutorError) : (EM.fail (α := α) e).PreservesGas :=
  EM.pg_of_gasEq (fun _ => ⟨rfl, rfl⟩)

theorem EM.bind_pg {α β : Type} {x : EM α} {f : α → EM β}
    (hx : x.PreservesGas) (hf : ∀ a, (f a).PreservesGas) :
    (EM.bind x f).PreservesGas := by
  intro s h
  simp only [EM.bind]
  rcases hxs : x s with ⟨s', r⟩
  have hx' := hx s h
  rw [hxs] at hx'
  cases r with
  | error e => exact hx'
  | ok a =>
    have hf' := hf a s' hx'.1
    exact ⟨hf'.1, hf'.2.trans hx'.2⟩

theorem EM.useGas_pg (amount : Nat) : (EM.useGas amount).PreservesGas := by
  intro s h
  by_cases hP : s.gas_used + amount > s.gas_limit
  · have hu : EM.useGas amount s = (s, .error .OutOfGas) := by
      simp [EM.useGas, Executor.use_gas, hP]
    rw [hu]
    exact ⟨h, rfl⟩
  · have hu : EM.useGas amount s
        = ({ s with gas_used := s.gas_used + amount }, .ok ()) := by
      simp [EM.useGas, Executor.use_gas, hP]
    rw [hu]
    refine ⟨?_, rfl⟩
    show s.gas_used + amount ≤ s.gas_limit
    omega

theorem EM.ite_pg {α : Type} (c : Prop) [Decidable c] {x y : EM α}
    (hx : x.PreservesGas) (hy : y.PreservesGas) :
    (if c then x else y).PreservesGas := by
  split
  · exact hx
  · exact hy

theorem EM.pop_pg : EM.pop.PreservesGas := by
  apply EM.pg_of_gasEq
  intro s
  cases hp : s.stack.pop with
  | error e => simp [EM.pop, hp]
  | ok p => simp [EM.pop, hp]

theorem EM.push_pg (v : Nat) : (EM.push v).PreservesGas := by
  apply EM.pg_of_gasEq
  intro s
  cases hp : s.stack.push v with
  | error e => simp [EM.push, hp]
  | ok st => simp [EM.push, hp]

theorem EM.dup_pg (i : Nat) : (EM.dup i).PreservesGas := by
  apply EM.pg_of_gasEq
  intro s
  cases hp : s.stack.dup i with
  | error e => simp [EM.dup, hp]
  | ok st => simp [EM.dup, hp]

theorem EM.swap_pg (i : Nat) : (EM.swap i).PreservesGas := by
  apply EM.pg_of_gasEq
  intro s
  cases hp : s.stack.swap i with
  | error e => simp [EM.swap, hp]
  | ok st => simp [EM.swap, hp]

theorem EM.expand_pg (offset size : Nat) : (EM.expand offset size).PreservesGas :=
  EM.pg_of_gasEq (fun _ => ⟨rfl, rfl⟩)

theorem EM.store32_pg (offset value : Nat) : (EM.store32 offset value).PreservesGas :=
  EM.pg_of_gasEq (fun _ => ⟨rfl, rfl⟩)

theorem EM.storeBytes_pg (offset : Nat) (bytes : List Nat) :
    (EM.storeBytes offset bytes).PreservesGas :=
  EM.pg_of_gasEq (fun _ => ⟨rfl, rfl⟩)

theorem EM.load32_pg (offset : Nat) : (EM.load32 offset).PreservesGas :=
  EM.pg_of_gasEq (fun _ => ⟨rfl, rfl⟩)

theorem EM.returnFromMemory_pg (offset size : Nat) :
    (EM.returnFromMemory offset size).PreservesGas :=
  EM.pg_of_gasEq (fun _ => ⟨rfl, rfl⟩)

theorem EM.jumpTo_pg (code : List Nat) (jumpdests : List Bool) (dest : Nat) :
    (EM.jumpTo code jumpdests dest).PreservesGas := by
  apply EM.pg_of_gasEq
  intro s
  simp only [EM.jumpTo]
  split
  · exact ⟨rfl, rfl⟩
  · exact ⟨rfl, rfl⟩

theorem EM.pushOp_pg (code : List Nat) (n : Nat) : (EM.pushOp code n).PreservesGas := by
  apply EM.pg_of_gasEq
  intro s
  simp only [EM.pushOp]
  split
  · exact ⟨rfl, rfl⟩
  · split
    · exact ⟨rfl, rfl⟩
    · exact ⟨rfl, rfl⟩

/-- Every opcode step of the fairvm executor preserves the gas
invariant: gas is only ever consumed through `use_gas`. -/
theorem execute_opcode_pg (code : List Nat) (jumpdests : List Bool) (op : Nat) :
    (execute_opcode code jumpdests op).PreservesGas := by
  unfold execute_opcode
  refine EM.bind_pg (EM.useGas_pg _) (fun _ => ?_)
  repeat'
    first
      | apply EM.ite_pg
      | exact EM.pop_pg
      | exact EM.push_pg _
      | exact EM.dup_pg _
      | exact EM.swap_pg _
      | exact EM.expand_pg _ _
      | exact EM.store32_pg _ _
      | exact EM.storeBytes_pg _ _
      | exact EM.load32_pg _
      | exact EM.returnFromMemory_pg _ _
      | exact EM.jumpTo_pg _ _ _
      | exact EM.useGas_pg _
      | exact EM.pushOp_pg _ _
      | exact EM.pure_pg _
      | exact EM.fail_pg _
      | apply EM.bind_pg
      | intro a

/-- The fairvm execute loop never reports more gas than the limit of the
state it starts from. -/
theorem execLoop_gas (code : List Nat) (jumpdests : List Bool) :
    ∀ (fuel : Nat) (s : Executor) (r : ExecutionResult),
      s.gas_used ≤ s.gas_limit → execLoop code jumpdests fuel s = some r →
      r.gas_used ≤ s.gas_limit := by
  intro fuel
  induction fuel with
  | zero => intro s r h hr; simp [execLoop] at hr
  | succ n ih =>
    intro s r h hr
    rw [execLoop] at hr
    split at hr
    · split at hr
      · rename_i s2 b heq
        have hpg := execute_opcode_pg code jumpdests (code.getD s.pc 0) s h
        rw [heq] at hpg
        have hpg1 : s2.gas_used ≤ s2.gas_limit := hpg.1
        have hpg2 : s2.gas_limit = s.gas_limit := hpg.2
        cases b with
        | true =>
          rw [if_pos rfl] at hr
          have hrec : r.gas_used ≤ s2.gas_limit :=
            ih { s2 with pc := s2.pc + 1 } r hpg1 hr
          exact hpg2 ▸ hrec
        | false =>
          rw [if_neg (by simp)] at hr
          cases hr
          exact hpg2 ▸ hpg1
      · rename_i s2 e heq
        have hpg := execute_opcode_pg code jumpdests (code.getD s.pc 0) s h
        rw [heq] at hpg
        have hpg1 : s2.gas_used ≤ s2.gas_limit := hpg.1
        have hpg2 : s2.gas_limit = s.gas_limit := hpg.2
        cases hr
        exact hpg2 ▸ hpg1
    · cases hr
      exact h

end FairVM

namespace Core

theorem CM.pg_of_gasEq_c {α : Type} {x : CM α}
    (hx : ∀ s, (x s).1.gas_used = s.gas_used ∧ (x s).1.gas_limit = s.gas_limit) :
    x.PreservesGas := by
  intro s h
  rw [(hx s).1, (hx s).2]
  exact ⟨h, rfl⟩

theorem CM.pure_pg_c {α : Type} (a : α) : (CM.pure a).PreservesGas :=
  CM.pg_of_gasEq_c (fun _ => ⟨rfl, rfl⟩)

theorem CM.fail_pg_c {α : Type} (e : ExecutorError) : (CM.fail (α := α) e).PreservesGas :=
  CM.pg_of_gasEq_c (fun _ => ⟨rfl, rfl⟩)

theorem CM.bind_pg_c {α β : Type} {x : CM α} {f : α → CM β}
    (hx : x.PreservesGas) (hf : ∀ a, (f a).PreservesGas) :
    (CM.bind x f).PreservesGas := by
  intro s h
  simp only [CM.bind]
  rcases hxs : x s with ⟨s', r⟩
  have hx' := hx s h
  rw [hxs] at hx'
  cases r with
  | error e => exact hx'
  | ok a =>
    have hf' := hf a s' hx'.1
    exact ⟨hf'.1, hf'.2.trans hx'.2⟩

theorem CM.ite_pg_c {α : Type} (c : Prop) [Decidable c] {x y : CM α}
    (hx : x.PreservesGas) (hy : y.PreservesGas) :
    (if c then x else y).PreservesGas := by
  split
  · exact hx
  · exact hy

theorem CM.useGas_pg_c (amount : Nat) : (CM.useGas amount).PreservesGas := by
  intro s h
  by_cases hP : s.gas_used + amount > s.gas_limit
  · have hu : CM.useGas amount s = (s, .error .OutOfGas) := by
      simp [CM.useGas, Executor.use_gas, hP]
    rw [hu]
    exact ⟨h, rfl⟩
  · have hu : CM.useGas amount s
        = ({ s with gas_used := s.gas_used + amount }, .ok ()) := by
      simp [CM.useGas, Executor.use_gas, hP]
    rw [hu]
    refine ⟨?_, rfl⟩
    show s.gas_used + amount ≤ s.gas_limit
    omega

theorem CM.updateFairness_pg (weight : Nat) : (CM.updateFairness weight).PreservesGas :=
  CM.pg_of_gasEq_c (fun _ => ⟨rfl, rfl⟩)

theorem CM.pop_pg_c : CM.pop.PreservesGas := by
  apply CM.pg_of_gasEq_c
  intro s
  cases hp : s.stack.pop with
  | error e => simp [CM.pop, hp]
  | ok p => simp [CM.pop, hp]

theorem CM.push_pg_c (v : Nat) : (CM.push v).PreservesGas := by
  apply CM.pg_of_gasEq_c
  intro s
  cases hp : s.stack.push v with
  | error e => simp [CM.push, hp]
  | ok st => simp [CM.push, hp]

theorem CM.load32_pg_c (offset : Nat) : (CM.load32 offset).PreservesGas :=
  CM.pg_of_gasEq_c (fun _ => ⟨rfl, rfl⟩)

theorem CM.store32_pg_c (offset value : Nat) : (CM.store32 offset value).PreservesGas :=
  CM.pg_of_gasEq_c (fun _ => ⟨rfl, rfl⟩)

theorem CM.sload_pg (key : Nat) : (CM.sload key).PreservesGas :=
  CM.pg_of_gasEq_c (fun _ => ⟨rfl, rfl⟩)

theorem CM.sstore_pg (key value : Nat) : (CM.sstore key value).PreservesGas :=
  CM.pg_of_gasEq_c (fun _ => ⟨rfl, rfl⟩)

theorem CM.returnFromMemory_pg_c (offset size : Nat) :
    (CM.returnFromMemory offset size).PreservesGas :=
  CM.pg_of_gasEq_c (fun _ => ⟨rfl, rfl⟩)

theorem CM.jumpTo_pg_c (code : List Nat) (jumpdests : List Bool) (dest : Nat) :
    (CM.jumpTo code jumpdests dest).PreservesGas := by
  apply CM.pg_of_gasEq_c
  intro s
  simp only [CM.jumpTo]
  split
  · exact ⟨rfl, rfl⟩
  · exact ⟨rfl, rfl⟩

theorem CM.sstoreOp_pg : CM.sstoreOp.PreservesGas := by
  intro s h
  simp only [CM.sstoreOp]
  split
  · exact ⟨h, rfl⟩
  · exact (CM.bind_pg_c CM.pop_pg_c (fun key => CM.bind_pg_c CM.pop_pg_c (fun value =>
      CM.bind_pg_c (CM.sstore_pg key value) (fun _ => CM.pure_pg_c true)))) s h

theorem CM.pcOp_pg : CM.pcOp.PreservesGas := by
  intro s h
  exact (CM.bind_pg_c (CM.push_pg_c s.pc) (fun _ => CM.pure_pg_c true)) s h

theorem CM.msizeOp_pg : CM.msizeOp.PreservesGas := by
  intro s h
  exact (CM.bind_pg_c (CM.push_pg_c s.memory.size) (fun _ => CM.pure_pg_c true)) s h

theorem CM.gasOp_pg : CM.gasOp.PreservesGas := by
  intro s h
  exact (CM.bind_pg_c (CM.push_pg_c (s.gas_limit - s.gas_used)) (fun _ => CM.pure_pg_c true)) s h

/-- Every opcode step of the fair-vm-core executor preserves the gas
invariant, whatever the (modelled) gas and fairness tables are. -/
theorem execute_opcode_pg_c (gas_cost fairness_weight : Nat → Nat)
    (code : List Nat) (jumpdests : List Bool) (op : Nat) :
    (execute_opcode gas_cost fairness_weight code jumpdests op).PreservesGas := by
  unfold execute_opcode
  cases from_u8 op with
  | none => exact CM.fail_pg_c _
  | some b =>
    refine CM.bind_pg_c (CM.useGas_pg_c _) (fun _ =>
      CM.bind_pg_c (CM.updateFairness_pg _) (fun _ => ?_))
    repeat'
      first
        | apply CM.ite_pg_c
        | exact CM.pop_pg_c
        | exact CM.push_pg_c _
        | exact CM.load32_pg_c _
        | exact CM.store32_pg_c _ _
        | exact CM.sload_pg _
        | exact CM.sstore_pg _ _
        | exact CM.returnFromMemory_pg_c _ _
        | exact CM.jumpTo_pg_c _ _ _
        | exact CM.sstoreOp_pg
        | exact CM.pcOp_pg
        | exact CM.msizeOp_pg
        | exact CM.gasOp_pg
        | exact CM.pure_pg_c _
        | exact CM.fail_pg_c _
        | apply CM.bind_pg_c
        | intro a

/-- The fair-vm-core execute loop never reports more gas than the limit
of the state it starts from. -/
theorem execLoop_gas_c (gas_cost fairness_weight : Nat → Nat)
    (code : List Nat) (jumpdests : List Bool) :
    ∀ (fuel : Nat) (s : Executor) (r : ExecutionResult),
      s.gas_used ≤ s.gas_limit →
      execLoop gas_cost fairness_weight code jumpdests fuel s = some r →
      r.gas_used ≤ s.gas_limit := by
  intro fuel
  induction fuel with
  | zero => intro s r h hr; simp [execLoop] at hr
  | succ n ih =>
    intro s r h hr
    rw [execLoop] at hr
    split at hr
    · dsimp only at hr
      split at hr
      · rename_i s2 heq
        have hpg := execute_opcode_pg_c gas_cost fairness_weight code jumpdests
          (code.getD s.pc 0) s h
        rw [heq] at hpg
        have hpg1 : s2.gas_used ≤ s2.gas_limit := hpg.1
        have hpg2 : s2.gas_limit = s.gas_limit := hpg.2
        have hrec : r.gas_used ≤ s2.gas_limit :=
          ih { s2 with pc := s2.pc + 1 } r hpg1 hr
        exact hpg2 ▸ hrec
      · rename_i s2 heq
        have hpg := execute_opcode_pg_c gas_cost fairness_weight code jumpdests
          (code.getD s.pc 0) s h
        rw [heq] at hpg
        have hpg1 : s2.gas_used ≤ s2.gas_limit := hpg.1
        have hpg2 : s2.gas_limit = s.gas_limit := hpg.2
        split at hr
        · cases hr
          exact hpg2 ▸ hpg1
        · have hrec : r.gas_used ≤ s2.gas_limit := ih s2 r hpg1 hr
          exact hpg2 ▸ hrec
      · rename_i s2 e heq
        have hpg := execute_opcode_pg_c gas_cost fairness_weight code jumpdests
          (code.getD s.pc 0) s h
        rw [heq] at hpg
        have hpg1 : s2.gas_used ≤ s2.gas_limit := hpg.1
        have hpg2 : s2.gas_limit = s.gas_limit := hpg.2
        cases hr
        exact hpg2 ▸ hpg1
    · cases hr
      exact h

end Core

/-- C3: gas accounting never exceeds the limit.  `use_gas` fails with
`OutOfGas` exactly when the charge would push `gas_used` past
`gas_limit`, leaving `gas_used` unchanged (the error carries the
unmodified state back to the caller), and otherwise adds the charge; and
a whole run of either executor — successful or failing — reports
`gas_used ≤ gas_limit`. -/
theorem gas_never_exceeds_limit :
    (∀ (s : FairVM.Executor) (amount : Nat),
        (s.gas_used + amount > s.gas_limit →
          s.use_gas amount = .error .OutOfGas)
      ∧ (s.gas_used + amount ≤ s.gas_limit →
          s.use_gas amount = .ok { s with gas_used := s.gas_used + amount })
      ∧ (s.gas_used + amount > s.gas_limit →
          FairVM.EM.useGas amount s = (s, .error .OutOfGas)))
  ∧ (∀ (fuel gas_limit : Nat) (code : List Nat) (r : FairVM.ExecutionResult),
        FairVM.execute fuel gas_limit code = some r → r.gas_used ≤ gas_limit)
  ∧ (∀ (s : Core.Executor) (amount : Nat),
        (s.gas_used + amount > s.gas_limit →
          s.use_gas amount = .error .OutOfGas)
      ∧ (s.gas_used + amount ≤ s.gas_limit →
          s.use_gas amount = .ok { s with gas_used := s.gas_used + amount })
      ∧ (s.gas_used + amount > s.gas_limit →
          Core.CM.useGas amount s = (s, .error .OutOfGas)))
  ∧ (∀ (gas_cost fairness_weight : Nat → Nat) (fuel : Nat)
        (st : Core.StorageMap) (context : Core.ExecutionContext)
        (code : List Nat) (r : Core.ExecutionResult),
        Core.execute gas_cost fairness_weight fuel st context code = some r →
        r.gas_used ≤ context.gas_limit) := by
  refine ⟨?_, ?_, ?_, ?_⟩
  · intro s amount
    refine ⟨?_, ?_, ?_⟩
    · intro hgt
      simp [FairVM.Executor.use_gas, hgt]
    · intro hle
      simp [FairVM.Executor.use_gas, Nat.not_lt.mpr hle]
    · intro hgt
      simp [FairVM.EM.useGas, FairVM.Executor.use_gas, hgt]
  · intro fuel gas_limit code r hr
    exact FairVM.execLoop_gas code (FairVM.analyze_jumpdests code) fuel
      (FairVM.Executor.new gas_limit) r (Nat.zero_le _) hr
  · intro s amount
    refine ⟨?_, ?_, ?_⟩
    · intro hgt
      simp [Core.Executor.use_gas, hgt]
    · intro hle
      simp [Core.Executor.use_gas, Nat.not_lt.mpr hle]
    · intro hgt
      simp [Core.CM.useGas, Core.Executor.use_gas, hgt]
  · intro gas_cost fairness_weight fuel st context code r hr
    exact Core.execLoop_gas_c gas_cost fairness_weight code
      (Core.analyze_jumpdests code) fuel (Core.Executor.new st context) r
      (Nat.zero_le _) hr

/-- Witness for `gas_never_exceeds_limit` at concrete runs and charges. -/
theorem gas_never_exceeds_limit_witness :
    ((FairVM.Executor.new 5).use_gas 9 = .error .OutOfGas)
  ∧ (∀ r, FairVM.execute 10 100 [0x60, 0x01, 0x00] = some r → r.gas_used ≤ 100)
  ∧ (∀ r, Core.execute (fun _ => 1) (fun _ => 0) 10 []
        ⟨[], [], 0, [], 100, [], false, 0⟩ [0x00] = some r → r.gas_used ≤ 100) := by
  refine ⟨?_, ?_, ?_⟩
  · exact ((gas_never_exceeds_limit.1 (FairVM.Executor.new 5) 9).1 (by decide))
  · intro r hr
    exact gas_never_exceeds_limit.2.1 10 100 [0x60, 0x01, 0x00] r hr
  · intro r hr
    exact gas_never_exceeds_limit.2.2.2 (fun _ => 1) (fun _ => 0) 10 []
      ⟨[], [], 0, [], 100, [], false, 0⟩ [0x00] r hr

namespace FairVM

theorem Scanned_le {code : List Nat} {i j : Nat} (h : Scanned code i j) : i ≤ j := by
  induction h with
  | here i => exact Nat.le_refl i
  | next i j hlt hs ih => omega

theorem Scanned_inv {code : List Nat} {i j : Nat} (h : Scanned code i j) :
    j = i ∨ (i < code.length ∧ Scanned code (i + skipLen (code.getD i 0) + 1) j) := by
  cases h with
  | here => exact Or.inl rfl
  | next _ _ hlt hs => exact Or.inr ⟨hlt, hs⟩

/-- The scan chain is deterministic: of two positions reached from the
same start, the smaller is an ancestor of the larger. -/
theorem Scanned_chain {code : List Nat} {j : Nat} :
    ∀ {a i : Nat}, Scanned code a i → i ≤ j → Scanned code a j → Scanned code i j := by
  intro a i hai
  induction hai with
  | here a => intro _ haj; exact haj
  | next a i hlt hs ih =>
    intro hij haj
    rcases Scanned_inv haj with rfl | ⟨_, hs2⟩
    · exfalso
      have h1 := Scanned_le hs
      omega
    · exact ih hij hs2

theorem getD_set_self {l : List Bool} {i : Nat} (h : i < l.length) :
    (l.set i true).getD i false = true := by
  simp [List.getD_eq_getElem?_getD, List.getElem?_set_self, h]

theorem getD_set_ne {l : List Bool} {i j : Nat} (h : i ≠ j) :
    (l.set i true).getD j false = l.getD j false := by
  simp [List.getD_eq_getElem?_getD, List.getElem?_set_ne h]

theorem getD_replicate_false (n j : Nat) :
    (List.replicate n false).getD j false = false := by
  simp [List.getD_eq_getElem?_getD, List.getElem?_replicate]
  split <;> rfl

/-- Characterization of the jump-destination scan: a byte is marked
exactly when it was already marked in the accumulator or it is a
scan-visited position holding the JUMPDEST byte 0x5b. -/
theorem analyzeGo_spec (code : List Nat) :
    ∀ (fuel : Nat) (jd : List Bool) (i j : Nat),
      code.length ≤ fuel + i → jd.length = code.length →
      ((analyzeGo code fuel jd i).getD j false = true ↔
        (jd.getD j false = true ∨
          (Scanned code i j ∧ j < code.length ∧ code.getD j 0 = 0x5b))) := by
  intro fuel
  induction fuel with
  | zero =>
    intro jd i j hfuel hlen
    simp only [analyzeGo]
    constructor
    · intro h; exact Or.inl h
    · rintro (h | ⟨hs, hj, _⟩)
      · exact h
      · exfalso
        have := Scanned_le hs
        omega
  | succ n ih =>
    intro jd i j hfuel hlen
    by_cases hi : i < code.length
    · have hstep : analyzeGo code (n + 1) jd i
          = analyzeGo code n
              (if code.getD i 0 = 0x5b then jd.set i true else jd)
              (i + skipLen (code.getD i 0) + 1) := by
        simp only [analyzeGo, if_pos hi]
      rw [hstep]
      have hlen2 : (if code.getD i 0 = 0x5b then jd.set i true else jd).length
          = code.length := by
        split <;> simp [hlen]
      rw [ih _ _ j (by omega) hlen2]
      by_cases hij : j = i
      · subst hij
        have hnot2 : ¬ Scanned code (j + skipLen (code.getD j 0) + 1) j := by
          intro hs
          have := Scanned_le hs
          omega
      
        constructor
        · rintro (hmark | ⟨hs, _, _⟩)
          · by_cases hb : code.getD j 0 = 0x5b
            · exact Or.inr ⟨Scanned.here j, hi, hb⟩
            · rw [if_neg hb] at hmark
              exact Or.inl hmark
          · exact absurd hs hnot2
        · rintro (hmark | ⟨_, _, hb⟩)
          · left
            by_cases hb : code.getD j 0 = 0x5b
            · rw [if_pos hb]
              exact getD_set_self (by omega)
            · rw [if_neg hb]
              exact hmark
          · left
            rw [if_pos hb]
            exact getD_set_self (by omega)
      · have hacc : (if code.getD i 0 = 0x5b then jd.set i true else jd).getD j false
            = jd.getD j false := by
          split
          · exact getD_set_ne (fun h => hij h.symm)
          · rfl
        rw [hacc]
        constructor
        · rintro (hmark | ⟨hs, hj, hb⟩)
          · exact Or.inl hmark
          · exact Or.inr ⟨Scanned.next i j hi hs, hj, hb⟩
        · rintro (hmark | ⟨hs, hj, hb⟩)
          · exact Or.inl hmark
          · rcases Scanned_inv hs with rfl | ⟨_, hs2⟩
            · exact absurd rfl hij
            · exact Or.inr ⟨hs2, hj, hb⟩
    · have hstep : analyzeGo code (n + 1) jd i = jd := by
        simp only [analyzeGo, if_neg hi]
      rw [hstep]
      constructor
      · intro h; exact Or.inl h
      · rintro (h | ⟨hs, hj, _⟩)
        · exact h
        · exfalso
          have := Scanned_le hs
          omega

/-- A byte of the code is marked as a jump destination exactly when it is
a scan-visited position holding 0x5b. -/
theorem analyze_marked_iff (code : List Nat) (j : Nat) :
    ((analyze_jumpdests code).getD j false = true ↔
      (Scanned code 0 j ∧ j < code.length ∧ code.getD j 0 = 0x5b)) := by
  rw [analyze_jumpdests,
    analyzeGo_spec code code.length (List.replicate code.length false) 0 j
      (by omega) (by simp)]
  rw [getD_replicate_false]
  simp

/-- A byte inside the operand span of a scan-visited PUSH instruction is
never a scan-visited position itself. -/
theorem not_scanned_operand {code : List Nat} {i j : Nat}
    (hsc : Scanned code 0 i) (hi : i < code.length)
    (hpl : 0x60 ≤ code.getD i 0) (hpu : code.getD i 0 ≤ 0x7f)
    (hlo : i < j) (hhi : j ≤ i + (code.getD i 0 - 0x60 + 1)) :
    ¬ Scanned code 0 j := by
  intro hscj
  have hij : Scanned code i j := Scanned_chain hsc (Nat.le_of_lt hlo) hscj
  have hskip : skipLen (code.getD i 0) = code.getD i 0 - 0x60 + 1 := by
    simp only [skipLen]
    rw [if_pos ⟨hpl, hpu⟩]
  rcases Scanned_inv hij with rfl | ⟨_, hs2⟩
  · omega
  · have := Scanned_le hs2
    omega

end FairVM

namespace FairVM

/-- C2: the one-pass jump-destination analysis never marks a byte inside
the operand span of a scan-visited PUSH1-PUSH32 instruction (even when
that byte equals 0x5b); JUMP — and JUMPI with a nonzero condition — to
such an unmarked offset, or to any offset at or beyond the end of code,
fails with `InvalidJumpdest`; and an offset holding an actual JUMPDEST
instruction (a scan-visited 0x5b byte) is accepted, the jump setting `pc`
to exactly that offset.  (Destinations are the popped stack value; the
hypotheses position them below `2^64` implicitly in that `U256::as_usize`
would panic rather than jump for larger values.) -/
theorem jumpdest_analysis_and_validation :
    (∀ (code : List Nat) (i j : Nat),
        Scanned code 0 i → i < code.length →
        0x60 ≤ code.getD i 0 → code.getD i 0 ≤ 0x7f →
        i < j → j ≤ i + (code.getD i 0 - 0x60 + 1) →
        (analyze_jumpdests code).getD j false = false)
  ∧ (∀ (code : List Nat) (s : Executor) (dest : Nat) (rest : List Nat),
        s.stack.items = dest :: rest →
        (code.length ≤ dest ∨ (analyze_jumpdests code).getD dest false = false) →
        s.gas_used + 3 ≤ s.gas_limit →
        execute_opcode code (analyze_jumpdests code) 0x56 s
          = ({ s with
                gas_used := s.gas_used + 3,
                stack := ⟨rest, s.stack.max_depth⟩ },
             .error .InvalidJumpdest))
  ∧ (∀ (code : List Nat) (s : Executor) (dest cond : Nat) (rest : List Nat),
        s.stack.items = dest :: cond :: rest → cond ≠ 0 →
        (code.length ≤ dest ∨ (analyze_jumpdests code).getD dest false = false) →
        s.gas_used + 3 ≤ s.gas_limit →
        execute_opcode code (analyze_jumpdests code) 0x57 s
          = ({ s with
                gas_used := s.gas_used + 3,
                stack := ⟨rest, s.stack.max_depth⟩ },
             .error .InvalidJumpdest))
  ∧ (∀ (code : List Nat) (s : Executor) (dest : Nat) (rest : List Nat),
        s.stack.items = dest :: rest →
        Scanned code 0 dest → dest < code.length → code.getD dest 0 = 0x5b →
        s.gas_used + 3 ≤ s.gas_limit →
        execute_opcode code (analyze_jumpdests code) 0x56 s
          = ({ s with
                gas_used := s.gas_used + 3,
                stack := ⟨rest, s.stack.max_depth⟩,
                pc := dest },
             .ok false)) := by
  refine ⟨?_, ?_, ?_, ?_⟩
  · intro code i j hsc hi hpl hpu hlo hhi
    cases hb : (analyze_jumpdests code).getD j false with
    | false => rfl
    | true =>
      exfalso
      have hm := (analyze_marked_iff code j).mp hb
      exact not_scanned_operand hsc hi hpl hpu hlo hhi hm.1
  · intro code s dest rest hstack hbad hgas
    have hg : Opcode.gas_cost 0x56 = 3 := by decide
    simp only [execute_opcode, hg, EM.bind, EM.useGas, Executor.use_gas]
    rw [if_neg (by omega)]
    norm_num
    simp only [EM.bind, EM.pop, Stack.pop, hstack, EM.jumpTo]
    rw [if_pos ?_]
    rcases hbad with h | h
    · exact Or.inl (by omega)
    · exact Or.inr (by rw [h]; simp)
  · intro code s dest cond rest hstack hcond hbad hgas
    have hg : Opcode.gas_cost 0x57 = 3 := by decide
    simp only [execute_opcode, hg, EM.bind, EM.useGas, Executor.use_gas]
    rw [if_neg (by omega)]
    norm_num
    simp only [EM.bind, EM.pop, Stack.pop, hstack]
    rw [if_neg hcond]
    simp only [EM.jumpTo]
    rw [if_pos ?_]
    rcases hbad with h | h
    · exact Or.inl (by omega)
    · exact Or.inr (by rw [h]; simp)
  · intro code s dest rest hstack hsc hlt hb hgas
    have hmark : (analyze_jumpdests code).getD dest false = true :=
      (analyze_marked_iff code dest).mpr ⟨hsc, hlt, hb⟩
    have hg : Opcode.gas_cost 0x56 = 3 := by decide
    simp only [execute_opcode, hg, EM.bind, EM.useGas, Executor.use_gas]
    rw [if_neg (by omega)]
    norm_num
    simp only [EM.bind, EM.pop, Stack.pop, hstack, EM.jumpTo]
    rw [if_neg ?_]
    push_neg
    exact ⟨by omega, by rw [hmark]⟩

/-- Witness for `jumpdest_analysis_and_validation` at concrete programs:
in `[0x60, 0x5b]` the operand byte 1 (holding 0x5b) is unmarked; a JUMP
to 5 in the one-byte program `[0x00]` fails; a taken JUMPI likewise; and
a JUMP to the JUMPDEST at offset 0 of `[0x5b]` succeeds and sets `pc` to
0. -/
theorem jumpdest_analysis_and_validation_witness :
    ((analyze_jumpdests [0x60, 0x5b]).getD 1 false = false)
  ∧ (execute_opcode [0x00] (analyze_jumpdests [0x00]) 0x56
        ⟨Memory.new, ⟨[5], 1024⟩, 0, 0, 100, []⟩
      = (⟨Memory.new, ⟨[], 1024⟩, 0, 3, 100, []⟩, .error .InvalidJumpdest))
  ∧ (execute_opcode [0x00] (analyze_jumpdests [0x00]) 0x57
        ⟨Memory.new, ⟨[5, 1], 1024⟩, 0, 0, 100, []⟩
      = (⟨Memory.new, ⟨[], 1024⟩, 0, 3, 100, []⟩, .error .InvalidJumpdest))
  ∧ (execute_opcode [0x5b] (analyze_jumpdests [0x5b]) 0x56
        ⟨Memory.new, ⟨[0], 1024⟩, 7, 0, 100, []⟩
      = (⟨Memory.new, ⟨[], 1024⟩, 0, 3, 100, []⟩, .ok false)) := by
  refine ⟨?_, ?_, ?_, ?_⟩
  · exact jumpdest_analysis_and_validation.1 [0x60, 0x5b] 0 1 (Scanned.here 0)
      (by decide) (by decide) (by decide) (by decide) (by decide)
  · exact (jumpdest_analysis_and_validation.2.1 [0x00]
      ⟨Memory.new, ⟨[5], 1024⟩, 0, 0, 100, []⟩ 5 [] rfl (Or.inl (by decide))
      (by decide))
  · exact (jumpdest_analysis_and_validation.2.2.1 [0x00]
      ⟨Memory.new, ⟨[5, 1], 1024⟩, 0, 0, 100, []⟩ 5 1 [] rfl (by decide)
      (Or.inl (by decide)) (by decide))
  · exact (jumpdest_analysis_and_validation.2.2.2 [0x5b]
      ⟨Memory.new, ⟨[0], 1024⟩, 7, 0, 100, []⟩ 0 [] rfl (Scanned.here 0)
      (by decide) (by decide) (by decide))

end FairVM

namespace Core

/-- In the fair-vm-core executor a PUSH1 byte (0x60) cannot execute at
all: the dispatch match has no PUSH arm, so after the gas and fairness
charges the step fails with `InvalidOpcode(0x60)` — while the crate's own
`test_jump_operations` test expects PUSH-laden programs to succeed. -/
theorem push1_invalid_opcode
    (gas_cost fairness_weight : Nat → Nat) (code : List Nat) (jumpdests : List Bool)
    (s : Executor) (hgas : s.gas_used + gas_cost 0x60 ≤ s.gas_limit) :
    execute_opcode gas_cost fairness_weight code jumpdests 0x60 s
      = ({ s with
            gas_used := s.gas_used + gas_cost 0x60,
            fairness_score := s.fairness_score + fairness_weight 0x60 },
         .error (.InvalidOpcode 0x60)) := by
  have hrec : from_u8 0x60 = some 0x60 := by decide
  simp only [execute_opcode, hrec, CM.bind, CM.useGas, Executor.use_gas,
    CM.updateFairness]
  rw [if_neg (by omega)]
  norm_num
  rfl

/-- Witness for `push1_invalid_opcode` at a concrete state. -/
theorem push1_invalid_opcode_witness :
    execute_opcode (fun _ => 3) (fun _ => 0) [] [] 0x60
        (Executor.new [] ⟨[], [], 0, [], 100, [], false, 0⟩)
      = ({ Executor.new [] ⟨[], [], 0, [], 100, [], false, 0⟩ with
            gas_used := 3 },
         .error (.InvalidOpcode 0x60)) := by
  have h := push1_invalid_opcode (fun _ => 3) (fun _ => 0) [] []
    (Executor.new [] ⟨[], [], 0, [], 100, [], false, 0⟩) (by decide)
  exact h.trans (by rfl)

end Core

/-- C1 (evaluation at the failing input): running the spec's scenario-2
bytecode `60 01 60 05 57 60 00 5b 60 02` does not complete with 2 on top
of the stack.  In the fairvm executor the JUMPI target 5 is the PUSH1
instruction byte of `PUSH1 0x00` — the analysis marks only offset 7, the
actual JUMPDEST — so the run fails with `InvalidJumpdest` after 9 gas;
even with the target corrected to 7 the fairvm loop breaks after the
taken jump (success after only 9 gas, so `PUSH1 0x02` never executes);
and the fair-vm-core executor, whose loop would continue after a jump,
rejects the very first `PUSH1` with `InvalidOpcode(0x60)` because its
dispatch has no PUSH arm. -/
theorem jumpi_scenario_diverges :
    (FairVM.execute 20 100000
        [0x60, 0x01, 0x60, 0x05, 0x57, 0x60, 0x00, 0x5b, 0x60, 0x02]
      = some ⟨false, 9, [], some .InvalidJumpdest⟩)
  ∧ ((FairVM.analyze_jumpdests
        [0x60, 0x01, 0x60, 0x05, 0x57, 0x60, 0x00, 0x5b, 0x60, 0x02]).getD 5 false
      = false)
  ∧ ((FairVM.analyze_jumpdests
        [0x60, 0x01, 0x60, 0x05, 0x57, 0x60, 0x00, 0x5b, 0x60, 0x02]).getD 7 false
      = true)
  ∧ (FairVM.execute 20 100000
        [0x60, 0x01, 0x60, 0x07, 0x57, 0x60, 0x00, 0x5b, 0x60, 0x02]
      = some ⟨true, 9, [], none⟩)
  ∧ (Core.execute (fun _ => 3) (fun _ => 1) 20 []
        ⟨[], [], 0, [], 100000, [], false, 0⟩
        [0x60, 0x01, 0x60, 0x05, 0x57, 0x60, 0x00, 0x5b, 0x60, 0x02]
      = some ⟨false, 3, [], some (.InvalidOpcode 0x60), 1⟩) := by
  refine ⟨by decide, by decide, by decide, by decide, by decide⟩
